import Mathlib

/-!
# Verification of the pi_pipeline spreadsheet → course-structure pipeline

Shallow embedding of the two core stages of the repository:

* stage 1 (`src/process_excel_files.py`): header mapping, row aggregation into
  slides with carry-forward state, audio-item numbering, per-sheet totals;
* stage 2 (`src/python/workbook_to_xml.py`): grouping toc entries into blocks
  and emitting the nested block/assignable-unit document.

Python cell values are modelled as `Option String` (a cell is either absent /
`None` or carries its stringified content); Python `int` is modelled as `Int`.
Dictionaries with insertion order are modelled as association lists.
-/

namespace PiPipeline

/-! ## Python string helpers (stage 1, `process_excel_files.py`)

All character-level work is done on `List Char` with structural recursion
(the core `String` functions are opaque to kernel reduction), mirroring the
Python string methods involved. -/

/-- Python `str.strip()` / the whitespace class of `str.split()`. -/
def isWs (c : Char) : Bool := c.isWhitespace

/-- `strip()`: drop leading and trailing whitespace. -/
def trimChars (cs : List Char) : List Char :=
  ((cs.dropWhile isWs).reverse.dropWhile isWs).reverse

/-- ASCII lowercasing of one character (Python `str.lower()` on the ASCII
range; the inputs of interest are ASCII). -/
def lowerChar (c : Char) : Char :=
  if 65 ≤ c.toNat && c.toNat ≤ 90 then Char.ofNat (c.toNat + 32) else c

/-- `str.lower()`. -/
def lowerChars (cs : List Char) : List Char := cs.map lowerChar

/-- `str.split()` (split on whitespace runs, no empty words), accumulating
the current word in reverse. -/
def wordsAux : List Char → List Char → List (List Char)
  | [], acc => if acc.isEmpty then [] else [acc.reverse]
  | c :: cs, acc =>
      if isWs c then
        if acc.isEmpty then wordsAux cs [] else acc.reverse :: wordsAux cs []
      else wordsAux cs (c :: acc)

/-- `" ".join(words)`. -/
def joinSpace : List (List Char) → List Char
  | [] => []
  | [w] => w
  | w :: ws => w ++ ' ' :: joinSpace ws

/-- `clean` from `process_excel_files.py`: `" ".join(str(s).strip().split())`,
i.e. collapse whitespace runs to single spaces and trim the ends. -/
def pyClean (s : String) : String :=
  String.mk (joinSpace (wordsAux s.data []))

/-- Python truthiness filter for optional strings: `None` and `""` are falsy.
Used to model the `clean(x) or fallback` idiom. -/
def pyTruthy : Option String → Option String
  | none => none
  | some s => if s = "" then none else some s

/-- Value of a list of decimal digit characters (helper for `pyParseInt`). -/
def digitsToNat (cs : List Char) : Nat :=
  cs.foldl (fun a c => a * 10 + (c.toNat - 48)) 0

/-- A nonempty all-digit character list. -/
def decDigitsValid (cs : List Char) : Bool :=
  !cs.isEmpty && cs.all Char.isDigit

/-- The decimal digit characters of a natural number, most significant
first — the reference function for `Nat.repr` used in the identifier
uniqueness proofs. -/
def natDigits (n : Nat) : List Char :=
  if n < 10 then [Nat.digitChar n]
  else natDigits (n / 10) ++ [Nat.digitChar (n % 10)]
termination_by n
decreasing_by exact Nat.div_lt_self (by omega) (by omega)

/-- Model of Python `int(str(x).strip())` on the stringified cell: optional
sign followed by a nonempty digit run, otherwise a `ValueError` (`none`). -/
def pyParseInt (s : String) : Option Int :=
  match trimChars s.data with
  | '+' :: cs => if decDigitsValid cs then some (Int.ofNat (digitsToNat cs)) else none
  | '-' :: cs => if decDigitsValid cs then some (-(Int.ofNat (digitsToNat cs))) else none
  | cs => if decDigitsValid cs then some (Int.ofNat (digitsToNat cs)) else none

/-- The three-way outcome of the slide-cell test at the top of the row loop of
`excel_to_json_grouped`: blank cell, non-blank but unparseable (row skipped),
or parsed integer. -/
inductive SlideCell where
  | blank : SlideCell
  | malformed : SlideCell
  | parsed (n : Int) : SlideCell
deriving DecidableEq, Repr

/-- `slide is None or str(slide).strip() == ""` → blank; otherwise
`int(str(slide).strip())`, with failure meaning the row is skipped. -/
def slideCell : Option String → SlideCell
  | none => .blank
  | some s =>
      if (trimChars s.data).isEmpty then .blank
      else
        match pyParseInt s with
        | some n => .parsed n
        | none => .malformed

/-- Key normalization used by `norm_filetype`:
`" ".join(str(raw).strip().lower().split())`. -/
def normKey (s : String) : String := pyClean (String.mk (lowerChars s.data))

/-- `norm_filetype` from `process_excel_files.py`, with the
`FILETYPE_NORMALIZE` table inlined in order.  (The table's
`"embedded  mp4"` key is unreachable: key normalization collapses the double
space to the `"embedded mp4"` entry with the same value.) -/
def norm_filetype : Option String → String
  | none => "Audio Bar"
  | some raw =>
      if (trimChars raw.data).isEmpty then "Audio Bar"
      else
        let key := normKey raw
        if key = "audio" then "Audio Bar"
        else if key = "audio bar" then "Audio Bar"
        else if key = "embedded mp4" then "Embedded MP4"
        else if key = "mp4" then "Embedded MP4"
        else if key = "video" then "Embedded MP4"
        else if key = "embedded mp3" then "Embedded MP3"
        else if key = "mp3" then "Embedded MP3"
        else String.mk (trimChars raw.data)

/-! ## Header mapping (`map_header`) -/

/-- `\s*` in the regexes below. -/
def dropWs (cs : List Char) : List Char := cs.dropWhile Char.isWhitespace

/-- `re.fullmatch(r"audio\s*#", text)`. -/
def audioHashMatch (cs : List Char) : Bool :=
  match cs with
  | 'a' :: 'u' :: 'd' :: 'i' :: 'o' :: rest => dropWs rest = ['#']
  | _ => false

/-- `re.fullmatch(r"#\s*audios", text)`. -/
def hashAudiosMatch (cs : List Char) : Bool :=
  match cs with
  | '#' :: rest => dropWs rest = "audios".data
  | _ => false

/-- `slides?` (the word `slide` with an optional final `s`). -/
def slidesWord (cs : List Char) : Bool :=
  cs = "slide".data || cs = "slides".data

/-- `re.fullmatch(r"(#\s*)?slides?", text)`. -/
def hashSlidesMatch (cs : List Char) : Bool :=
  match cs with
  | '#' :: rest => slidesWord (dropWs rest)
  | cs => slidesWord cs

/-- Substring containment on character lists (Python `pat in s`). -/
def containsList (cs pat : List Char) : Bool :=
  match cs with
  | [] => pat.isEmpty
  | _ :: rest => pat.isPrefixOf cs || containsList rest pat

/-- Substring containment (Python `pat in s`). -/
def containsSub (s pat : String) : Bool := containsList s.data pat.data

/-- `map_header` from `process_excel_files.py`: canonical field name for a raw
header cell, `none` when the column is ignored.  `cs` is
`str(raw).strip().lower()`. -/
def map_header : Option String → Option String
  | none => none
  | some raw =>
      let cs := lowerChars (trimChars raw.data)
      if audioHashMatch cs then none
      else if hashAudiosMatch cs || cs = "audios".data then none
      else if hashSlidesMatch cs then some "slide_number"
      else if cs = "slide number".data || cs = "slidenumber".data || cs = "slide".data then
        some "slide_number"
      else if cs = "lesson#".data || cs = "lesson".data then some "lesson"
      else if containsList cs "block".data && containsList cs "section".data then some "section"
      else if containsList cs "assignable".data && containsList cs "unit".data then some "title"
      else if cs = "script".data || cs = "transcription".data || cs = "audio".data then
        some "transcription"
      else if containsList cs "file location".data && containsList cs "html".data then
        some "file_type"
      else if cs = "file type".data || cs = "filetype".data || cs = "file_type".data then
        some "file_type"
      else if "notes".data.isPrefixOf cs then some "notes"
      else if cs = "occurrence".data || cs = "occurence".data || cs = "slide title".data
          || cs = "slidetitle".data || cs = "link to dev".data || cs = "linktodev".data then none
      else none

/-! ## Row aggregation (`excel_to_json_grouped`, `process_excel_files.py`)

One data row of a sheet, restricted to the canonically mapped columns.  A
column that is absent from the header mapping reads as `None` for every row,
so `Option String` fields cover both missing columns and empty cells.  The
Python `section` key is spelled `section_` because `section` is a Lean
keyword. -/

structure Row where
  slide : Option String
  section_ : Option String
  title : Option String
  transcription : Option String
  notes : Option String
  file_type : Option String
deriving DecidableEq, Repr

/-- One generated audio item (`audio_item` dict).  `notes` is present only
when truthy, mirrored here by `Option`. -/
structure AudioItem where
  filename : String
  file_type : String
  transcription : Option String
  notes : Option String
deriving DecidableEq, Repr

/-- One slide record (`slides_by_num[slide]` dict).  `audio_total` is only
attached after the row loop; during aggregation it stays `0`. -/
structure SlideRec where
  slide_number : Int
  lesson : String
  section_ : Option String
  title : Option String
  audio : List AudioItem
  audio_total : Nat
deriving DecidableEq, Repr

/-- The carry-forward state threaded through the row loop:
`last_slide`, `last_section`, `last_title`, plus the two dictionaries
`audio_counts` and `slides_by_num` (insertion-ordered association lists). -/
structure AggState where
  last_slide : Option Int
  last_section : Option String
  last_title : Option String
  audio_counts : List (Int × Nat)
  slides : List (Int × SlideRec)
deriving DecidableEq, Repr

/-- First-match lookup in an association list (Python dict access). -/
def lookupA {α : Type} : List (Int × α) → Int → Option α
  | [], _ => none
  | (k, v) :: rest, k' => if k = k' then some v else lookupA rest k'

/-- `audio_counts.setdefault(slide, 0)`: insert `0` only when the key is
absent; an existing count is left untouched. -/
def setdefault0 : List (Int × Nat) → Int → List (Int × Nat)
  | [], k => [(k, 0)]
  | (k0, v) :: rest, k =>
      if k0 = k then (k0, v) :: rest else (k0, v) :: setdefault0 rest k

/-- `audio_counts[slide] = audio_counts.get(slide, 0) + 1; a_idx = audio_counts[slide]`:
returns the updated dict together with the new count. -/
def bump : List (Int × Nat) → Int → List (Int × Nat) × Nat
  | [], k => ([(k, 1)], 1)
  | (k0, v) :: rest, k =>
      if k0 = k then ((k0, v + 1) :: rest, v + 1)
      else
        let p := bump rest k
        ((k0, v) :: p.1, p.2)

/-- `slides_by_num[slide]["audio"].append(audio_item)`. -/
def appendAudio : List (Int × SlideRec) → Int → AudioItem → List (Int × SlideRec)
  | [], _, _ => []
  | (k0, s) :: rest, k, a =>
      if k0 = k then (k0, { s with audio := s.audio ++ [a] }) :: rest
      else (k0, s) :: appendAudio rest k a

/-- The fresh slide record materialized on first reference to a slide number. -/
def mkNewSlide (lessonNum : Int) (n : Int) (sec tit : Option String) : SlideRec :=
  { slide_number := n
    lesson := "Lesson " ++ toString lessonNum
    section_ := sec
    title := tit
    audio := []
    audio_total := 0 }

/-- `transcript is None and notes is None and (ftype is None or str(ftype).strip() == "")`:
the decorative-row test (raw cells, before any cleaning). -/
def blankContent (r : Row) : Bool :=
  r.transcription.isNone && r.notes.isNone &&
    (match r.file_type with
     | none => true
     | some s => (trimChars s.data).isEmpty)

/-- The part of the row loop body after the slide number has resolved to `n`:
section/title carry-forward, the decorative-row skip, slide materialization
and the audio append. -/
def processRest (base : String) (lessonNum : Int) (st : AggState) (n : Int) (r : Row) :
    AggState :=
  let sec := match pyTruthy (r.section_.map pyClean) with
             | some s => some s
             | none => st.last_section
  let tit := match pyTruthy (r.title.map pyClean) with
             | some s => some s
             | none => st.last_title
  let st1 := { st with last_section := sec, last_title := tit }
  if blankContent r then st1
  else
    let slides1 := match lookupA st1.slides n with
                   | some _ => st1.slides
                   | none => st1.slides ++ [(n, mkNewSlide lessonNum n sec tit)]
    let p := bump st1.audio_counts n
    let item : AudioItem :=
      { filename := base ++ "_" ++ toString n ++ "_" ++ toString p.2
        file_type := norm_filetype r.file_type
        transcription := r.transcription.map pyClean
        notes := pyTruthy (r.notes.map pyClean) }
    { st1 with audio_counts := p.1, slides := appendAudio slides1 n item }

/-- One iteration of `for row in ws.iter_rows(...)`: resolve the slide cell
(malformed → row skipped; blank → inherit `last_slide`, skipping when nothing
was ever seen; parsed → update `last_slide` and `setdefault` the counter),
then run the remainder of the body. -/
def processRow (base : String) (lessonNum : Int) (st : AggState) (r : Row) : AggState :=
  match slideCell r.slide with
  | .malformed => st
  | .blank =>
      match st.last_slide with
      | none => st
      | some n => processRest base lessonNum st n r
  | .parsed n =>
      processRest base lessonNum
        { st with last_slide := some n, audio_counts := setdefault0 st.audio_counts n } n r

/-- The state before the first data row. -/
def initState : AggState :=
  { last_slide := none
    last_section := none
    last_title := none
    audio_counts := []
    slides := [] }

/-- The whole row loop. -/
def excelAggregate (base : String) (lessonNum : Int) (rows : List Row) : AggState :=
  rows.foldl (processRow base lessonNum) initState

/-- Stable insertion into a list sorted by `slide_number` (ascending). -/
def insRec (s : SlideRec) : List SlideRec → List SlideRec
  | [] => [s]
  | t :: ts =>
      if s.slide_number ≤ t.slide_number then s :: t :: ts else t :: insRec s ts

/-- `sorted(slides_by_num.values(), key=lambda x: x["slide_number"])`, as a
stable insertion sort (Python's `sorted` is stable; the keys here are the
distinct dict keys, so any stable ascending sort gives the same list). -/
def pySortRecs (l : List SlideRec) : List SlideRec := l.foldr insRec []

/-- The post-loop pass: set each slide's `audio_total` to its audio length and
accumulate `total_audio_this_sheet`. -/
def finalizeSlides (l : List SlideRec) : List SlideRec × Nat :=
  l.foldl
    (fun acc s =>
      let s2 := { s with audio_total := s.audio.length }
      (acc.1 ++ [s2], acc.2 + s2.audio_total))
    ([], 0)

/-- The slice of the per-sheet output object relevant to the claims: the
sorted slide list and the `totals` pair. -/
structure SheetObj where
  slides : List SlideRec
  totals_slides : Nat
  totals_audio : Nat
deriving DecidableEq, Repr

/-- Aggregation of one sheet's data rows into the sheet object
(`excel_to_json_grouped`, per-worksheet part; toc building and code lookup
play no role in the claims and are omitted). -/
def excel_sheet (base : String) (lessonNum : Int) (rows : List Row) : SheetObj :=
  let st := excelAggregate base lessonNum rows
  let p := finalizeSlides (pySortRecs (st.slides.map Prod.snd))
  { slides := p.1, totals_slides := p.1.length, totals_audio := p.2 }

/-! ## Course-structure builder (`build_xml_for_sheet`, `src/python/workbook_to_xml.py`)

A toc entry as seen by the builder.  The raw JSON `slide_number` value is
represented by its image under `_to_int(·, None)`: `some n` when the value
parses, `none` when it is absent or unparseable (`_to_int(·, 0)` is then
`Option.getD · 0`).  `section` and `title` are the raw JSON values. -/

structure TocEntry where
  slide_number : Option Int
  section_ : Option String
  title : Option String
deriving DecidableEq, Repr

/-- Characters kept verbatim by `slugify` (`[a-z0-9]`). -/
def isSlugChar (c : Char) : Bool :=
  c.isDigit || (97 ≤ c.toNat && c.toNat ≤ 122)

/-- The characters removed by `re.sub(r'[“”"\']', "", s)`
(codepoints 34, 39, 8220, 8221). -/
def isQuoteChar (c : Char) : Bool :=
  c.toNat = 34 || c.toNat = 39 || c.toNat = 8220 || c.toNat = 8221

/-- Collapse runs of `'_'` to a single `'_'` (together with the character map
below this realizes `re.sub(r"[^a-z0-9]+", "_", s)`). -/
def collapseU : List Char → List Char
  | [] => []
  | c :: cs =>
      match cs with
      | [] => [c]
      | d :: _ => if c = '_' && d = '_' then collapseU cs else c :: collapseU cs

/-- `strip("_")`. -/
def stripU (cs : List Char) : List Char :=
  ((cs.dropWhile (fun c => c = '_')).reverse.dropWhile (fun c => c = '_')).reverse

/-- `slugify` from `workbook_to_xml.py`: strip, lowercase, drop quote
characters, squash non-`[a-z0-9]` runs to `_`, strip `_`, default
`"section"`. -/
def slugify (s : String) : String :=
  let t := (lowerChars (trimChars s.data)).filter (fun c => !isQuoteChar c)
  let u := stripU (collapseU (t.map (fun c => if isSlugChar c then c else '_')))
  if u.isEmpty then "section" else String.mk u

/-- `canonical_block_title` from `workbook_to_xml.py` (the argument is the
raw `section` value of a toc entry, which can be absent). -/
def canonical_block_title (sec : Option String) : String :=
  let low := lowerChars (trimChars (sec.getD "").data)
  if low = "unit intro".data || low = "intro".data || low = "lesson opener".data then
    "Lesson Opener"
  else if containsList low "warm-up".data || containsList low "warm up".data
      || containsList low "review and repetition".data then "Warm-up Review and Repetition"
  else if containsList low "multimodal mini".data then "Multimodal Minilesson"
  else if containsList low "vocabulary booster".data then "Vocabulary Booster"
  else if containsList low "apply to reading and writing".data then "Apply to Reading and Writing"
  else if containsList low "additional supports".data then "Additional Supports"
  else
    match sec with
    | none => "Lesson"
    | some s => if s = "" then "Lesson" else s

/-- `grouped.setdefault(key, []).append(item)` on an insertion-ordered dict of
lists. -/
def groupInsert (acc : List (String × List TocEntry)) (k : String) (e : TocEntry) :
    List (String × List TocEntry) :=
  match acc with
  | [] => [(k, [e])]
  | (k0, es) :: rest =>
      if k0 = k then (k0, es ++ [e]) :: rest else (k0, es) :: groupInsert rest k e

/-- The grouping loop: toc entries grouped by canonical block title,
preserving first-seen key order and per-key entry order. -/
def groupToc (toc : List TocEntry) : List (String × List TocEntry) :=
  toc.foldl (fun acc e => groupInsert acc (canonical_block_title e.section_) e) []

/-- `title_by_slide.get(sn) or default`: the title stored for `sn` by the
`title_by_slide` loop (last parseable entry wins), with Python falsiness
(`None` and `""`) falling back to the default. -/
def titleOr (toc : List TocEntry) (sn : Int) (d : String) : String :=
  match (toc.filter (fun t => t.slide_number = some sn)).getLast? with
  | none => d
  | some t =>
      match t.title with
      | none => d
      | some s => if s = "" then d else s

/-- `max(slide_numbers)` (Python `max` of a nonempty int list; `0` is a
placeholder for the empty case, which the builder rules out beforehand). -/
def listMax : List Int → Int
  | [] => 0
  | a :: rest => rest.foldl max a

/-- Stable insertion into a list sorted ascending by
`_to_int(x.get("slide_number"), 0)`. -/
def insEntry (e : TocEntry) : List TocEntry → List TocEntry
  | [] => [e]
  | x :: xs =>
      if e.slide_number.getD 0 ≤ x.slide_number.getD 0 then e :: x :: xs
      else x :: insEntry e xs

/-- `sorted(items, key=lambda x: _to_int(x.get("slide_number"), 0))` as a
stable insertion sort (Python `sorted` is stable). -/
def pySortEntries (l : List TocEntry) : List TocEntry := l.foldr insEntry []

/-- One `au` element: its `id` attribute, title text, `url`, and the
`teacherResource` url when the element carries one. -/
structure Au where
  id : String
  title : String
  url : String
  teacher : Option String
deriving DecidableEq, Repr

/-- One `block` element: `id` attribute, title text, and its `au` children. -/
structure Block where
  id : String
  title : String
  aus : List Au
deriving DecidableEq, Repr

/-- `http://benchmarkuniverse.com/{xcode}`. -/
def baseUrl (xcode : String) : String := "http://benchmarkuniverse.com/" ++ xcode

/-- An `au` of the "Lesson Opener" block: fixed id, title from
`title_by_slide` with fallback `"Lesson Opener"`. -/
def openerAu (xcode : String) (toc : List TocEntry) (it : TocEntry) : Au :=
  let sn := it.slide_number.getD 0
  { id := baseUrl xcode ++ "/block/lesson_opener_lesson"
    title := titleOr toc sn "Lesson Opener"
    url := "contents/lesson/" ++ toString sn ++ ".html"
    teacher := some ("contents/teacherResources/support_" ++ toString sn ++ ".html") }

/-- The "Lesson Opener" block: fixed id, items sorted by slide number. -/
def openerBlock (xcode : String) (toc : List TocEntry) (items : List TocEntry) : Block :=
  { id := baseUrl xcode ++ "/block/lesson_opener_block"
    title := "Lesson Opener"
    aus := (pySortEntries items).map (openerAu xcode toc) }

/-- `http://benchmarkuniverse.com/{xcode}/block{bi}/lesson_{lesson_num}/{slug}`:
the id of a standard block, and (with the au slug in place of the block slug,
since `block_id.rsplit('/', 1)[0]` drops exactly the final slug component —
slugs contain no `/`) of its assignable units. -/
def stdBlockId (xcode : String) (lessonNum : Int) (bi : Int) (slug : String) : String :=
  baseUrl xcode ++ "/block" ++ toString bi ++ "/lesson_" ++ toString lessonNum ++ "/" ++ slug

/-- `seen[key] = seen.get(key, 0) + 1` on the slug-collision counter dict,
returning the new count. -/
def bumpSeen : List (String × Nat) → String → List (String × Nat) × Nat
  | [], k => ([(k, 1)], 1)
  | (k0, n) :: rest, k =>
      if k0 = k then ((k0, n + 1) :: rest, n + 1)
      else
        let p := bumpSeen rest k
        ((k0, n) :: p.1, p.2)

/-- The `au` loop of a standard block, threading the `seen` counters: title
from `title_by_slide` with fallback `"Slide {sn}"`, slug disambiguation by
occurrence count (`key`, `key_2`, `key_3`, …). -/
def stdAus (xcode : String) (lessonNum : Int) (toc : List TocEntry) (bi : Int) :
    List TocEntry → List (String × Nat) → List Au
  | [], _ => []
  | it :: rest, seen =>
      let sn := it.slide_number.getD 0
      let auTitle := titleOr toc sn ("Slide " ++ toString sn)
      let key := slugify auTitle
      let p := bumpSeen seen key
      let auSlug := if p.2 = 1 then key else key ++ "_" ++ toString p.2
      { id := stdBlockId xcode lessonNum bi auSlug
        title := auTitle
        url := "contents/lesson/" ++ toString sn ++ ".html"
        teacher := some ("contents/teacherResources/support_" ++ toString sn ++ ".html") }
        :: stdAus xcode lessonNum toc bi rest p.1

/-- A standard (non-opener, non-supports) block: slug from the first item's
raw section, items sorted by slide number. -/
def standardBlock (xcode : String) (lessonNum : Int) (toc : List TocEntry) (bi : Int)
    (bt : String) (items : List TocEntry) : Block :=
  let slug := slugify (match items.head? with
                       | some it => it.section_.getD ""
                       | none => bt)
  { id := stdBlockId xcode lessonNum bi slug
    title := bt
    aus := stdAus xcode lessonNum toc bi (pySortEntries items) [] }

/-- The synthesized trailing "Additional Supports" block: one `au` whose url
points one page past the last real slide. -/
def additionalSupportsBlock (xcode : String) (lessonNum : Int) (bi : Int)
    (lastSlide : Int) : Block :=
  { id := stdBlockId xcode lessonNum bi "additional_supports"
    title := "Additional Supports"
    aus := [{ id := baseUrl xcode ++ "/block" ++ toString bi ++ "/lesson_"
                      ++ toString lessonNum ++ "/additionalsupports_0"
              title := "Additional Supports"
              url := "contents/lesson/" ++ toString (lastSlide + 1) ++ ".html"
              teacher := none }] }

/-- The `for block_title, items in grouped.items()` loop: "Lesson Opener"
groups emit an opener block without touching `block_index`, "Additional
Supports" groups are skipped, and every other group emits a standard block
with a pre-incremented `block_index`.  Returns the emitted blocks together
with the final `block_index`. -/
def emitGroups (xcode : String) (lessonNum : Int) (toc : List TocEntry) :
    Int → List (String × List TocEntry) → List Block × Int
  | bi, [] => ([], bi)
  | bi, (bt, items) :: rest =>
      if bt = "Lesson Opener" then
        let p := emitGroups xcode lessonNum toc bi rest
        (openerBlock xcode toc items :: p.1, p.2)
      else if bt = "Additional Supports" then
        emitGroups xcode lessonNum toc bi rest
      else
        let p := emitGroups xcode lessonNum toc (bi + 1) rest
        (standardBlock xcode lessonNum toc (bi + 1) bt items :: p.1, p.2)

/-- `build_xml_for_sheet`, restricted to its block/au skeleton (course-level
metadata, player configuration and the three placeholder resources carry no
information relevant to the claims): `none` models the skip signal for an
empty toc or a toc with no parseable slide number; otherwise the grouped
blocks are emitted (starting from `block_index = -1`) and the synthesized
"Additional Supports" block is appended last, linking to
`max(slide_numbers) + 1`. -/
def build_xml_for_sheet (xcode : String) (lessonNum : Int) (toc : List TocEntry) :
    Option (List Block) :=
  if toc.isEmpty then none
  else
    let sns := toc.filterMap TocEntry.slide_number
    if sns.isEmpty then none
    else
      let p := emitGroups xcode lessonNum toc (-1) (groupToc toc)
      some (p.1 ++ [additionalSupportsBlock xcode lessonNum (p.2 + 1) (listMax sns)])

/-! ## Association-list lemmas -/

/-- The count stored for `k`, defaulting to `0` (Python `get(k, 0)`). -/
def countD (c : List (Int × Nat)) (k : Int) : Nat := (lookupA c k).getD 0

/-- The per-slide shape maintained by the row loop: the record is keyed by its
own slide number, the audio counter equals the audio length, and the `i`-th
audio item (0-based) is named `{base}_{k}_{i+1}`. -/
def slideOk (base : String) (k : Int) (s : SlideRec) (c : Nat) : Prop :=
  s.slide_number = k ∧ s.audio.length = c ∧
    ∀ i (h : i < s.audio.length),
      (s.audio.get ⟨i, h⟩).filename
        = base ++ "_" ++ toString k ++ "_" ++ toString (i + 1)

/-- Invariant of the aggregation state: every materialized slide satisfies
`slideOk` with the stored counter, unmaterialized slides count 0, and the
slide keys are duplicate-free. -/
def aggInv (base : String) (st : AggState) : Prop :=
  (∀ k s, lookupA st.slides k = some s → slideOk base k s (countD st.audio_counts k))
  ∧ (∀ k, lookupA st.slides k = none → countD st.audio_counts k = 0)
  ∧ (st.slides.map Prod.fst).Nodup

theorem lookupA_append {α : Type} (l m : List (Int × α)) (k : Int) :
    lookupA (l ++ m) k
      = match lookupA l k with
        | some v => some v
        | none => lookupA m k := by
  induction l with
  | nil => simp [lookupA]
  | cons p rest ih =>
      obtain ⟨k0, v0⟩ := p
      by_cases hk : k0 = k <;> simp [lookupA, hk, ih]

theorem lookupA_setdefault0_self (c : List (Int × Nat)) (k : Int) :
    lookupA (setdefault0 c k) k = some (countD c k) := by
  induction c with
  | nil => simp [setdefault0, lookupA, countD]
  | cons p rest ih =>
      obtain ⟨k0, v0⟩ := p
      by_cases hk : k0 = k <;> simp [setdefault0, lookupA, countD, hk] at ih ⊢ <;>
        simpa [countD] using ih

theorem lookupA_setdefault0_other (c : List (Int × Nat)) (k k' : Int) (h : k' ≠ k) :
    lookupA (setdefault0 c k) k' = lookupA c k' := by
  have h' : ¬k = k' := fun hh => h hh.symm
  induction c with
  | nil => simp [setdefault0, lookupA, h']
  | cons p rest ih =>
      obtain ⟨k0, v0⟩ := p
      by_cases hk : k0 = k
      · subst hk
        simp [setdefault0, lookupA, h']
      · simp [setdefault0, lookupA, hk, ih]

theorem bump_snd (c : List (Int × Nat)) (k : Int) :
    (bump c k).2 = countD c k + 1 := by
  induction c with
  | nil => simp [bump, countD, lookupA]
  | cons p rest ih =>
      obtain ⟨k0, v0⟩ := p
      by_cases hk : k0 = k <;> simp [bump, countD, lookupA, hk] at ih ⊢ <;>
        simpa [countD] using ih

theorem lookupA_bump_self (c : List (Int × Nat)) (k : Int) :
    lookupA (bump c k).1 k = some ((bump c k).2) := by
  induction c with
  | nil => simp [bump, lookupA]
  | cons p rest ih =>
      obtain ⟨k0, v0⟩ := p
      by_cases hk : k0 = k <;> simp [bump, lookupA, hk, ih]

theorem lookupA_bump_other (c : List (Int × Nat)) (k k' : Int) (h : k' ≠ k) :
    lookupA (bump c k).1 k' = lookupA c k' := by
  have h' : ¬k = k' := fun hh => h hh.symm
  induction c with
  | nil => simp [bump, lookupA, h']
  | cons p rest ih =>
      obtain ⟨k0, v0⟩ := p
      by_cases hk : k0 = k
      · subst hk
        simp [bump, lookupA, h']
      · simp [bump, lookupA, hk, ih]

theorem lookupA_appendAudio_self (l : List (Int × SlideRec)) (n : Int) (a : AudioItem) :
    lookupA (appendAudio l n a) n
      = (lookupA l n).map (fun s => { s with audio := s.audio ++ [a] }) := by
  induction l with
  | nil => simp [appendAudio, lookupA]
  | cons p rest ih =>
      obtain ⟨k0, s0⟩ := p
      by_cases hk : k0 = n <;> simp [appendAudio, lookupA, hk, ih]

theorem lookupA_appendAudio_other (l : List (Int × SlideRec)) (n k : Int) (a : AudioItem)
    (h : k ≠ n) : lookupA (appendAudio l n a) k = lookupA l k := by
  have h' : ¬n = k := fun hh => h hh.symm
  induction l with
  | nil => simp [appendAudio]
  | cons p rest ih =>
      obtain ⟨k0, s0⟩ := p
      by_cases hk : k0 = n
      · subst hk
        simp [appendAudio, lookupA, h']
      · simp [appendAudio, lookupA, hk, ih]

theorem appendAudio_keys (l : List (Int × SlideRec)) (n : Int) (a : AudioItem) :
    (appendAudio l n a).map Prod.fst = l.map Prod.fst := by
  induction l with
  | nil => simp [appendAudio]
  | cons p rest ih =>
      obtain ⟨k0, s0⟩ := p
      by_cases hk : k0 = n <;> simp [appendAudio, hk, ih]

theorem processRow_malformed (base : String) (lessonNum : Int) (st : AggState) (r : Row)
    (h : slideCell r.slide = .malformed) : processRow base lessonNum st r = st := by
  simp [processRow, h]

theorem countD_setdefault0 (c : List (Int × Nat)) (n k : Int) :
    countD (setdefault0 c n) k = countD c k := by
  by_cases h : k = n
  · subst h
    unfold countD
    rw [lookupA_setdefault0_self]
    rfl
  · unfold countD
    rw [lookupA_setdefault0_other c n k h]

theorem countD_bump_self (c : List (Int × Nat)) (n : Int) :
    countD (bump c n).1 n = countD c n + 1 := by
  unfold countD
  rw [lookupA_bump_self, bump_snd]
  rfl

theorem countD_bump_other (c : List (Int × Nat)) (n k : Int) (h : k ≠ n) :
    countD (bump c n).1 k = countD c k := by
  unfold countD
  rw [lookupA_bump_other c n k h]

theorem lookupA_eq_none {α : Type} (l : List (Int × α)) (k : Int) :
    lookupA l k = none ↔ k ∉ l.map Prod.fst := by
  induction l with
  | nil => simp [lookupA]
  | cons p rest ih =>
      obtain ⟨k0, v0⟩ := p
      by_cases hk : k0 = k
      · subst hk
        simp [lookupA]
      · have hk' : ¬k = k0 := fun hh => hk hh.symm
        simp [lookupA, hk, hk', ih]

theorem lookupA_of_mem {α : Type} (l : List (Int × α)) (k : Int) (v : α)
    (hmem : (k, v) ∈ l) (hnd : (l.map Prod.fst).Nodup) : lookupA l k = some v := by
  induction l with
  | nil => cases hmem
  | cons p rest ih =>
      obtain ⟨k0, v0⟩ := p
      rcases List.mem_cons.mp hmem with heq | htail
      · rw [Prod.mk.injEq] at heq
        obtain ⟨rfl, rfl⟩ := heq
        simp [lookupA]
      · have hk : ¬k0 = k := by
          intro hh
          subst hh
          have hmemk : k0 ∈ rest.map Prod.fst := List.mem_map.mpr ⟨(k0, v), htail, rfl⟩
          exact (List.nodup_cons.mp hnd).1 hmemk
        simpa [lookupA, hk] using ih htail (List.nodup_cons.mp hnd).2

theorem get_append_singleton {α : Type} (l : List α) (a : α) (i : Nat)
    (h : i < (l ++ [a]).length) :
    (l ++ [a]).get ⟨i, h⟩ = if h2 : i < l.length then l.get ⟨i, h2⟩ else a := by
  induction l generalizing i with
  | nil =>
      cases i with
      | zero => simp
      | succ j => simp at h
  | cons x xs ih =>
      cases i with
      | zero => simp
      | succ j =>
          have h' : j < (xs ++ [a]).length := Nat.lt_of_succ_lt_succ (by simpa using h)
          show (xs ++ [a]).get ⟨j, h'⟩ = _
          rw [ih j h']
          have hiff : j + 1 < (x :: xs).length ↔ j < xs.length := by
            simp [Nat.succ_lt_succ_iff]
          by_cases hj : j < xs.length
          · rw [dif_pos hj, dif_pos (hiff.mpr hj)]
            rfl
          · rw [dif_neg hj, dif_neg (fun hh => hj (hiff.mp hh))]

theorem slideOk_append (base : String) (k : Int) (s : SlideRec) (c : Nat) (a : AudioItem)
    (hok : slideOk base k s c)
    (ha : a.filename = base ++ "_" ++ toString k ++ "_" ++ toString (c + 1)) :
    slideOk base k { s with audio := s.audio ++ [a] } (c + 1) := by
  obtain ⟨hn, hl, hf⟩ := hok
  refine ⟨hn, by simp [hl], ?_⟩
  intro i hi
  have hlen : (s.audio ++ [a]).length = s.audio.length + 1 := by simp
  have hi' : i < (s.audio ++ [a]).length := hi
  show ((s.audio ++ [a]).get ⟨i, hi'⟩).filename = _
  rw [get_append_singleton s.audio a i hi']
  by_cases h2 : i < s.audio.length
  · rw [dif_pos h2]
    exact hf i h2
  · rw [dif_neg h2]
    have hic : i = c := by omega
    rw [hic]
    exact ha

/-! ## The aggregation invariant -/

theorem aggInv_initState (base : String) : aggInv base initState := by
  refine ⟨?_, ?_, ?_⟩
  · intro k s hs
    simp [initState, lookupA] at hs
  · intro k _
    rfl
  · simp [initState]

theorem aggInv_processRest (base : String) (lessonNum : Int) (st : AggState) (n : Int)
    (r : Row) (h : aggInv base st) :
    aggInv base (processRest base lessonNum st n r) := by
  obtain ⟨h1, h2, h3⟩ := h
  by_cases hb : blankContent r
  · simp only [processRest, hb, if_true]
    exact ⟨h1, h2, h3⟩
  · simp only [processRest, hb, Bool.false_eq_true, if_false]
    rcases hcase : lookupA st.slides n with _ | s
    all_goals simp only [hcase]
    · -- slide `n` not yet materialized: appended at the end with one item
      have hc0 : countD st.audio_counts n = 0 := h2 n hcase
      have hnotin : n ∉ st.slides.map Prod.fst := (lookupA_eq_none _ n).mp hcase
      have hl1 : ∀ sec tit, lookupA (st.slides ++ [(n, mkNewSlide lessonNum n sec tit)]) n
          = some (mkNewSlide lessonNum n sec tit) := by
        intro sec tit
        rw [lookupA_append, hcase]
        simp [lookupA]
      have hlo : ∀ k, k ≠ n → ∀ sec tit,
          lookupA (st.slides ++ [(n, mkNewSlide lessonNum n sec tit)]) k
            = lookupA st.slides k := by
        intro k hk sec tit
        rw [lookupA_append]
        rcases hck : lookupA st.slides k with _ | v
        · have hk' : ¬n = k := fun hh => hk hh.symm
          simp [lookupA, hk']
        · rfl
      refine ⟨?_, ?_, ?_⟩
      · intro k s' hs'
        by_cases hk : k = n
        · subst hk
          rw [lookupA_appendAudio_self, hl1] at hs'
          simp only [Option.map_some'] at hs'
          rw [countD_bump_self, hc0]
          injection hs' with hs''
          subst hs''
          refine ⟨rfl, by simp [mkNewSlide], ?_⟩
          intro i hi
          have hi1 : i < 1 := by simpa [mkNewSlide] using hi
          interval_cases i
          simp [mkNewSlide, bump_snd, hc0]
        · rw [lookupA_appendAudio_other _ _ _ _ hk, hlo k hk] at hs'
          rw [countD_bump_other _ _ _ hk]
          exact h1 k s' hs'
      · intro k hs'
        by_cases hk : k = n
        · subst hk
          rw [lookupA_appendAudio_self, hl1] at hs'
          simp at hs'
        · rw [lookupA_appendAudio_other _ _ _ _ hk, hlo k hk] at hs'
          rw [countD_bump_other _ _ _ hk]
          exact h2 k hs'
      · rw [appendAudio_keys]
        simp only [List.map_append, List.map_cons, List.map_nil]
        simp [List.nodup_append, h3, hnotin]
    · -- slide `n` already materialized: item appended to its audio
      have hok := h1 n s hcase
      refine ⟨?_, ?_, ?_⟩
      · intro k s' hs'
        by_cases hk : k = n
        · subst hk
          rw [lookupA_appendAudio_self, hcase] at hs'
          simp only [Option.map_some'] at hs'
          rw [countD_bump_self]
          injection hs' with hs''
          subst hs''
          refine slideOk_append base k s (countD st.audio_counts k) _ hok ?_
          simp only [bump_snd]
        · rw [lookupA_appendAudio_other _ _ _ _ hk] at hs'
          rw [countD_bump_other _ _ _ hk]
          exact h1 k s' hs'
      · intro k hs'
        by_cases hk : k = n
        · subst hk
          rw [lookupA_appendAudio_self, hcase] at hs'
          simp at hs'
        · rw [lookupA_appendAudio_other _ _ _ _ hk] at hs'
          rw [countD_bump_other _ _ _ hk]
          exact h2 k hs'
      · rw [appendAudio_keys]
        exact h3

theorem aggInv_processRow (base : String) (lessonNum : Int) (st : AggState) (r : Row)
    (h : aggInv base st) : aggInv base (processRow base lessonNum st r) := by
  rcases hcell : slideCell r.slide with _ | _ | n
  · rcases hlast : st.last_slide with _ | n
    · simpa [processRow, hcell, hlast] using h
    · simpa [processRow, hcell, hlast] using
        aggInv_processRest base lessonNum st n r h
  · simpa [processRow, hcell] using h
  · have h' : aggInv base
        { st with last_slide := some n, audio_counts := setdefault0 st.audio_counts n } := by
      obtain ⟨h1, h2, h3⟩ := h
      refine ⟨?_, ?_, h3⟩
      · intro k s hs
        have hgoal : slideOk base k s (countD (setdefault0 st.audio_counts n) k) := by
          rw [countD_setdefault0]
          exact h1 k s hs
        exact hgoal
      · intro k hs
        have hgoal : countD (setdefault0 st.audio_counts n) k = 0 := by
          rw [countD_setdefault0]
          exact h2 k hs
        exact hgoal
    simpa [processRow, hcell] using
      aggInv_processRest base lessonNum _ n r h'

theorem aggInv_excelAggregate (base : String) (lessonNum : Int) (rows : List Row) :
    aggInv base (excelAggregate base lessonNum rows) := by
  unfold excelAggregate
  have hgen : ∀ st, aggInv base st →
      aggInv base (rows.foldl (processRow base lessonNum) st) := by
    induction rows with
    | nil => exact fun st h => h
    | cons r rest ih =>
        intro st h
        exact ih _ (aggInv_processRow base lessonNum st r h)
  exact hgen initState (aggInv_initState base)

/-! ## Sorting and totals lemmas -/

theorem mem_insRec (a s : SlideRec) (l : List SlideRec) :
    a ∈ insRec s l ↔ a = s ∨ a ∈ l := by
  induction l with
  | nil => simp [insRec]
  | cons t ts ih =>
      by_cases hle : s.slide_number ≤ t.slide_number
      · simp [insRec, hle]
      · simp [insRec, hle, ih]
        tauto

theorem mem_pySortRecs (a : SlideRec) (l : List SlideRec) :
    a ∈ pySortRecs l ↔ a ∈ l := by
  unfold pySortRecs
  induction l with
  | nil => simp
  | cons s rest ih => simp [List.foldr_cons, mem_insRec, ih]

theorem finalizeSlides_go (l acc : List SlideRec) (t : Nat) :
    l.foldl
        (fun acc2 s =>
          let s2 := { s with audio_total := s.audio.length }
          (acc2.1 ++ [s2], acc2.2 + s2.audio_total))
        (acc, t)
      = (acc ++ l.map (fun s => { s with audio_total := s.audio.length }),
         t + (l.map (fun s => s.audio.length)).sum) := by
  induction l generalizing acc t with
  | nil => simp
  | cons s rest ih =>
      simp only [List.foldl_cons, List.map_cons, List.sum_cons]
      rw [ih]
      simp [List.append_assoc, Nat.add_assoc]

theorem finalizeSlides_spec (l : List SlideRec) :
    finalizeSlides l
      = (l.map (fun s => { s with audio_total := s.audio.length }),
         (l.map (fun s => s.audio.length)).sum) := by
  unfold finalizeSlides
  simpa using finalizeSlides_go l [] 0

/-! ## Claim C6: header mapping of "Audio #" and "Slide #" -/

/-- **C6** (counterexample): the claim says the header cell `"Slide #"` maps
to `slide_number`; in the code `map_header` returns no field for it — the
slide patterns only allow a *leading* `#` (`(#\s*)?slides?`), the exact
synonyms, or `"slide number"`/`"slidenumber"`. -/
theorem map_header_slide_hash_cex :
    map_header (some "Slide #") = none
    ∧ map_header (some "Slide #") ≠ some "slide_number" := by
  decide

/-- **C6** (amended): after trim and lowercasing, `"Audio #"` maps to no
field, and `"Slide #"` likewise maps to no field; `slide_number` is produced
by `"slide(s)"` with an optional leading `"#"`, by `"slide number"`, or by
`"slidenumber"`. -/
theorem map_header_audio_slide_examples :
    map_header (some "Audio #") = none
    ∧ map_header (some "Slide #") = none
    ∧ map_header (some "# Slide") = some "slide_number"
    ∧ map_header (some "# Slides") = some "slide_number"
    ∧ map_header (some "Slides") = some "slide_number"
    ∧ map_header (some "Slide Number") = some "slide_number"
    ∧ map_header (some "SlideNumber") = some "slide_number" := by
  decide

/-! ## Claim C9: malformed slide cells are row-local and non-fatal -/

/-- **C9**: a data row whose slide cell is non-blank but not
integer-parseable is skipped in its entirety — it contributes no slide, no
audio item and no carry-forward update (the aggregation state is returned
unchanged) — and aggregating the sheet with the row present gives the same
result as with the row absent, so the condition is never fatal. -/
theorem malformed_row_skipped (base : String) (lessonNum : Int) (st : AggState) (r : Row)
    (h : slideCell r.slide = .malformed) :
    processRow base lessonNum st r = st
    ∧ ∀ pre post : List Row,
        excelAggregate base lessonNum (pre ++ r :: post)
          = excelAggregate base lessonNum (pre ++ post) := by
  constructor
  · exact processRow_malformed base lessonNum st r h
  · intro pre post
    unfold excelAggregate
    rw [List.foldl_append, List.foldl_append, List.foldl_cons,
      processRow_malformed base lessonNum _ r h]

/-- Witness for `malformed_row_skipped` at the concrete row whose slide cell
holds `"x7"`. -/
theorem malformed_row_skipped_witness :
    slideCell (Row.mk (some "x7") none none (some "t") none none).slide = .malformed
    ∧ (processRow "b" 1 initState (Row.mk (some "x7") none none (some "t") none none)
          = initState
       ∧ ∀ pre post : List Row,
           excelAggregate "b" 1 (pre ++ Row.mk (some "x7") none none (some "t") none none :: post)
             = excelAggregate "b" 1 (pre ++ post)) :=
  ⟨by decide, malformed_row_skipped "b" 1 initState _ (by decide)⟩

/-! ## Claim C3: a re-seen slide number does not reset its audio counter -/

/-- **C3** (counterexample): the claim says a parseable slide cell resets the
slide's audio counter to 0 even when the slide was already seen, so that its
subsequent audio items are numbered starting again from 1.  On the rows
`[slide "3" / transcript "a", slide "3" / transcript "c"]` the second item's
filename is `b_3_2`, not the restart `b_3_1`. -/
theorem audio_counter_reset_cex :
    slideCell (Row.mk (some "3") none none (some "c") none none).slide = SlideCell.parsed 3
    ∧ ((excel_sheet "b" 1
          [Row.mk (some "3") none none (some "a") none none,
           Row.mk (some "3") none none (some "c") none none]).slides.map
        (fun s => s.audio.map AudioItem.filename)) = [["b_3_1", "b_3_2"]]
    ∧ [["b_3_1", "b_3_2"]] ≠ [["b_3_1", "b_3_1"]] := by
  decide

/-- **C3** (amended): when a row's slide cell parses as integer `n`, the
aggregator updates `last_slide` to `n` and `setdefault`s the counter — the
counter entry is created as 0 only when absent, and an existing counter keeps
its value (`countD` below), so a re-seen slide's audio items continue
numbering from the previous count rather than restarting at 1. -/
theorem parsed_slide_counter_setdefault (base : String) (lessonNum : Int)
    (st : AggState) (r : Row) (n : Int) (h : slideCell r.slide = .parsed n) :
    processRow base lessonNum st r
      = processRest base lessonNum
          { st with last_slide := some n, audio_counts := setdefault0 st.audio_counts n } n r
    ∧ lookupA (setdefault0 st.audio_counts n) n = some (countD st.audio_counts n) :=
  ⟨by simp [processRow, h], lookupA_setdefault0_self st.audio_counts n⟩

/-- Witness for `parsed_slide_counter_setdefault` at a state whose counter
for slide 3 already holds 2. -/
theorem parsed_slide_counter_setdefault_witness :
    slideCell (Row.mk (some "3") none none (some "a") none none).slide = SlideCell.parsed 3
    ∧ (processRow "b" 1 (AggState.mk none none none [(3, 2)] [])
          (Row.mk (some "3") none none (some "a") none none)
        = processRest "b" 1 (AggState.mk (some 3) none none (setdefault0 [(3, 2)] 3) []) 3
            (Row.mk (some "3") none none (some "a") none none)
       ∧ lookupA (setdefault0 [(3, 2)] 3) 3 = some (countD [(3, 2)] 3)) :=
  ⟨by decide,
    parsed_slide_counter_setdefault "b" 1 (AggState.mk none none none [(3, 2)] [])
      (Row.mk (some "3") none none (some "a") none none) 3 (by decide)⟩

/-! ## Claim C5: blank cells inherit carry-forward state -/

/-- **C5**: a row whose slide cell is blank inherits the most recent
parseable slide number `n` and appends its audio item to that existing slide
(incrementing that slide's counter) rather than starting a new one (the key
set of `slides_by_num` is unchanged), and blank section/title cells inherit
the carry-forward section/title values. -/
theorem blank_cells_inherit (base : String) (lessonNum : Int) (st : AggState)
    (r : Row) (n : Int) (s : SlideRec)
    (hblank : slideCell r.slide = .blank)
    (hlast : st.last_slide = some n)
    (hs : lookupA st.slides n = some s)
    (hcontent : blankContent r = false)
    (hsec : pyTruthy (r.section_.map pyClean) = none)
    (htit : pyTruthy (r.title.map pyClean) = none) :
    (processRow base lessonNum st r).last_slide = some n
    ∧ (processRow base lessonNum st r).last_section = st.last_section
    ∧ (processRow base lessonNum st r).last_title = st.last_title
    ∧ lookupA (processRow base lessonNum st r).slides n
        = some { s with audio := s.audio ++
            [{ filename := base ++ "_" ++ toString n ++ "_"
                 ++ toString (countD st.audio_counts n + 1)
               file_type := norm_filetype r.file_type
               transcription := r.transcription.map pyClean
               notes := pyTruthy (r.notes.map pyClean) }] }
    ∧ countD (processRow base lessonNum st r).audio_counts n = countD st.audio_counts n + 1
    ∧ (processRow base lessonNum st r).slides.map Prod.fst = st.slides.map Prod.fst := by
  have hpr : processRow base lessonNum st r = processRest base lessonNum st n r := by
    simp [processRow, hblank, hlast]
  rw [hpr]
  simp only [processRest, hsec, htit, hcontent, Bool.false_eq_true, if_false, hs]
  refine ⟨hlast, trivial, trivial, ?_, ?_, ?_⟩
  · rw [lookupA_appendAudio_self, hs, bump_snd]
    rfl
  · unfold countD
    rw [lookupA_bump_self, bump_snd]
    rfl
  · rw [appendAudio_keys]

/-- Witness for `blank_cells_inherit`: a continuation row (blank slide,
section and title cells, notes content) appended to a state whose slide 3
already has one audio item. -/
theorem blank_cells_inherit_witness :
    slideCell (Row.mk none none none none (some "n2") none).slide = SlideCell.blank
    ∧ lookupA [(3, SlideRec.mk 3 "Lesson 1" (some "S") (some "T")
          [AudioItem.mk "b_3_1" "Audio Bar" (some "a") none] 0)] 3
        = some (SlideRec.mk 3 "Lesson 1" (some "S") (some "T")
            [AudioItem.mk "b_3_1" "Audio Bar" (some "a") none] 0)
    ∧ ((processRow "b" 1
          (AggState.mk (some 3) (some "S") (some "T") [(3, 1)]
            [(3, SlideRec.mk 3 "Lesson 1" (some "S") (some "T")
                [AudioItem.mk "b_3_1" "Audio Bar" (some "a") none] 0)])
          (Row.mk none none none none (some "n2") none)).last_slide = some 3
       ∧ (processRow "b" 1
          (AggState.mk (some 3) (some "S") (some "T") [(3, 1)]
            [(3, SlideRec.mk 3 "Lesson 1" (some "S") (some "T")
                [AudioItem.mk "b_3_1" "Audio Bar" (some "a") none] 0)])
          (Row.mk none none none none (some "n2") none)).last_section = some "S"
       ∧ (processRow "b" 1
          (AggState.mk (some 3) (some "S") (some "T") [(3, 1)]
            [(3, SlideRec.mk 3 "Lesson 1" (some "S") (some "T")
                [AudioItem.mk "b_3_1" "Audio Bar" (some "a") none] 0)])
          (Row.mk none none none none (some "n2") none)).last_title = some "T"
       ∧ lookupA (processRow "b" 1
          (AggState.mk (some 3) (some "S") (some "T") [(3, 1)]
            [(3, SlideRec.mk 3 "Lesson 1" (some "S") (some "T")
                [AudioItem.mk "b_3_1" "Audio Bar" (some "a") none] 0)])
          (Row.mk none none none none (some "n2") none)).slides 3
          = some (SlideRec.mk 3 "Lesson 1" (some "S") (some "T")
              [AudioItem.mk "b_3_1" "Audio Bar" (some "a") none,
               AudioItem.mk ("b" ++ "_" ++ toString (3 : Int) ++ "_"
                   ++ toString (countD [(3, 1)] 3 + 1))
                 (norm_filetype none) none (pyTruthy ((some "n2").map pyClean))] 0)
       ∧ countD (processRow "b" 1
          (AggState.mk (some 3) (some "S") (some "T") [(3, 1)]
            [(3, SlideRec.mk 3 "Lesson 1" (some "S") (some "T")
                [AudioItem.mk "b_3_1" "Audio Bar" (some "a") none] 0)])
          (Row.mk none none none none (some "n2") none)).audio_counts 3
          = countD [(3, 1)] 3 + 1
       ∧ (processRow "b" 1
          (AggState.mk (some 3) (some "S") (some "T") [(3, 1)]
            [(3, SlideRec.mk 3 "Lesson 1" (some "S") (some "T")
                [AudioItem.mk "b_3_1" "Audio Bar" (some "a") none] 0)])
          (Row.mk none none none none (some "n2") none)).slides.map Prod.fst
          = [(3, SlideRec.mk 3 "Lesson 1" (some "S") (some "T")
                [AudioItem.mk "b_3_1" "Audio Bar" (some "a") none] 0)].map Prod.fst) :=
  ⟨by decide, by decide,
    blank_cells_inherit "b" 1
      (AggState.mk (some 3) (some "S") (some "T") [(3, 1)]
        [(3, SlideRec.mk 3 "Lesson 1" (some "S") (some "T")
            [AudioItem.mk "b_3_1" "Audio Bar" (some "a") none] 0)])
      (Row.mk none none none none (some "n2") none) 3
      (SlideRec.mk 3 "Lesson 1" (some "S") (some "T")
        [AudioItem.mk "b_3_1" "Audio Bar" (some "a") none] 0)
      (by decide) rfl (by decide) (by decide) (by decide) (by decide)⟩

/-! ## Claim C8: per-sheet totals -/

/-- **C8**: for every sheet object produced by aggregating one sheet's rows,
`totals.slides` equals the number of entries in `slides` and
`totals.audio_items` equals the sum over all slides of `audio_total`. -/
theorem sheet_totals_consistent (base : String) (lessonNum : Int) (rows : List Row) :
    (excel_sheet base lessonNum rows).totals_slides
        = (excel_sheet base lessonNum rows).slides.length
    ∧ (excel_sheet base lessonNum rows).totals_audio
        = ((excel_sheet base lessonNum rows).slides.map SlideRec.audio_total).sum := by
  constructor
  · simp only [excel_sheet, finalizeSlides_spec]
  · simp only [excel_sheet, finalizeSlides_spec, List.map_map]
    rfl

/-! ## Claim C4: audio filename suffixes are contiguous from 1 -/

/-- **C4**: every slide of the aggregated sheet object has
`audio_total = length audio`, and the `i`-th audio item (0-based, in append
order) is named `{base}_{slide_number}_{i+1}` — i.e. the numeric suffixes
form the contiguous run `1..audio_total` in order. -/
theorem audio_suffixes_contiguous (base : String) (lessonNum : Int) (rows : List Row)
    (s : SlideRec) (hmem : s ∈ (excel_sheet base lessonNum rows).slides) :
    s.audio_total = s.audio.length
    ∧ ∀ i (h : i < s.audio.length),
        (s.audio.get ⟨i, h⟩).filename
          = base ++ "_" ++ toString s.slide_number ++ "_" ++ toString (i + 1) := by
  obtain ⟨hinv1, hinv2, hinv3⟩ := aggInv_excelAggregate base lessonNum rows
  rw [show (excel_sheet base lessonNum rows).slides
      = (pySortRecs ((excelAggregate base lessonNum rows).slides.map Prod.snd)).map
          (fun s => { s with audio_total := s.audio.length }) by
    simp only [excel_sheet, finalizeSlides_spec]] at hmem
  rcases List.mem_map.mp hmem with ⟨s0, hs0, rfl⟩
  rw [mem_pySortRecs] at hs0
  rcases List.mem_map.mp hs0 with ⟨kv, hkv, hsnd⟩
  obtain ⟨k, s1⟩ := kv
  have hsnd' : s1 = s0 := hsnd
  subst hsnd'
  obtain ⟨hn, hl, hf⟩ := hinv1 k s1 (lookupA_of_mem _ k s1 hkv hinv3)
  refine ⟨rfl, ?_⟩
  intro i hi
  have hi' : i < s1.audio.length := hi
  show (s1.audio.get ⟨i, hi'⟩).filename
      = base ++ "_" ++ toString s1.slide_number ++ "_" ++ toString (i + 1)
  rw [hn]
  exact hf i hi'

/-- Witness for `audio_suffixes_contiguous` at a two-audio slide built from
three rows (the third row continues slide 2). -/
theorem audio_suffixes_contiguous_witness :
    SlideRec.mk 2 "Lesson 1" none none
        [AudioItem.mk "w_2_1" "Audio Bar" (some "a") none,
         AudioItem.mk "w_2_2" "Audio Bar" (some "b") none] 2
      ∈ (excel_sheet "w" 1
          [Row.mk (some "2") none none (some "a") none none,
           Row.mk none none none (some "b") none none]).slides
    ∧ ((SlideRec.mk 2 "Lesson 1" none none
        [AudioItem.mk "w_2_1" "Audio Bar" (some "a") none,
         AudioItem.mk "w_2_2" "Audio Bar" (some "b") none] 2).audio_total
        = (SlideRec.mk 2 "Lesson 1" none none
        [AudioItem.mk "w_2_1" "Audio Bar" (some "a") none,
         AudioItem.mk "w_2_2" "Audio Bar" (some "b") none] 2).audio.length
       ∧ ∀ i (h : i < (SlideRec.mk 2 "Lesson 1" none none
          [AudioItem.mk "w_2_1" "Audio Bar" (some "a") none,
           AudioItem.mk "w_2_2" "Audio Bar" (some "b") none] 2).audio.length),
          ((SlideRec.mk 2 "Lesson 1" none none
            [AudioItem.mk "w_2_1" "Audio Bar" (some "a") none,
             AudioItem.mk "w_2_2" "Audio Bar" (some "b") none] 2).audio.get ⟨i, h⟩).filename
            = "w" ++ "_" ++ toString (SlideRec.mk 2 "Lesson 1" none none
                [AudioItem.mk "w_2_1" "Audio Bar" (some "a") none,
                 AudioItem.mk "w_2_2" "Audio Bar" (some "b") none] 2).slide_number
                ++ "_" ++ toString (i + 1)) :=
  ⟨by decide,
    audio_suffixes_contiguous "w" 1
      [Row.mk (some "2") none none (some "a") none none,
       Row.mk none none none (some "b") none none]
      (SlideRec.mk 2 "Lesson 1" none none
        [AudioItem.mk "w_2_1" "Audio Bar" (some "a") none,
         AudioItem.mk "w_2_2" "Audio Bar" (some "b") none] 2)
      (by decide)⟩

/-! ## Builder lemmas: emitted block titles and grouping order -/

theorem emitGroups_titles (xcode : String) (lessonNum : Int) (toc : List TocEntry)
    (groups : List (String × List TocEntry)) :
    ∀ bi : Int, ∀ b ∈ (emitGroups xcode lessonNum toc bi groups).1,
      b.title ≠ "Additional Supports" := by
  induction groups with
  | nil =>
      intro bi b hb
      simp [emitGroups] at hb
  | cons g rest ih =>
      obtain ⟨bt, items⟩ := g
      intro bi b hb
      by_cases h1 : bt = "Lesson Opener"
      · simp only [emitGroups, h1, if_true] at hb
        rcases List.mem_cons.mp hb with rfl | hb'
        · exact (by decide : ("Lesson Opener" : String) ≠ "Additional Supports")
        · exact ih bi b hb'
      · by_cases h2 : bt = "Additional Supports"
        · simp only [emitGroups, h1, h2, if_false, if_true] at hb
          exact ih bi b hb
        · simp only [emitGroups, h1, h2, if_false] at hb
          rcases List.mem_cons.mp hb with rfl | hb'
          · show bt ≠ "Additional Supports"
            exact h2
          · exact ih (bi + 1) b hb'

theorem groupInsert_ne_nil (acc : List (String × List TocEntry)) (k : String) (e : TocEntry) :
    groupInsert acc k e ≠ [] := by
  cases acc with
  | nil => simp [groupInsert]
  | cons p rest =>
      obtain ⟨k0, es⟩ := p
      by_cases hk : k0 = k <;> simp [groupInsert, hk]

theorem groupInsert_head (acc : List (String × List TocEntry)) (k : String) (e : TocEntry)
    (h : acc ≠ []) :
    (groupInsert acc k e).head?.map Prod.fst = acc.head?.map Prod.fst := by
  cases acc with
  | nil => cases h rfl
  | cons p rest =>
      obtain ⟨k0, es⟩ := p
      by_cases hk : k0 = k <;> simp [groupInsert, hk]

theorem foldl_groupInsert_head (l : List TocEntry) :
    ∀ acc : List (String × List TocEntry), acc ≠ [] →
      (l.foldl (fun acc e => groupInsert acc (canonical_block_title e.section_) e)
          acc).head?.map Prod.fst
        = acc.head?.map Prod.fst := by
  induction l with
  | nil => intro acc _; rfl
  | cons e rest ih =>
      intro acc h
      rw [List.foldl_cons, ih _ (groupInsert_ne_nil acc _ e), groupInsert_head acc _ e h]

theorem groupToc_head_key (e : TocEntry) (rest : List TocEntry) :
    (groupToc (e :: rest)).head?.map Prod.fst
      = some (canonical_block_title e.section_) := by
  unfold groupToc
  rw [List.foldl_cons]
  rw [foldl_groupInsert_head rest _ (groupInsert_ne_nil [] _ e)]
  rfl

/-! ## Claim C1: the synthesized Additional Supports block is last -/

/-- **C1**: for a toc with at least one parseable slide number, the builder
emits `some` document whose last block is the single synthesized "Additional
Supports" block (no other emitted block carries that title, so inlined
"Additional Supports" toc entries produce no block of their own), and that
block's single assignable unit's url points at
`max(parseable slide numbers) + 1`. -/
theorem additional_supports_last (xcode : String) (lessonNum : Int) (toc : List TocEntry)
    (h : toc.filterMap TocEntry.slide_number ≠ []) :
    ∃ bs : List Block, ∃ b : Block,
      build_xml_for_sheet xcode lessonNum toc = some (bs ++ [b])
      ∧ b.title = "Additional Supports"
      ∧ (∀ b' ∈ bs, b'.title ≠ "Additional Supports")
      ∧ ∃ a : Au, b.aus = [a]
          ∧ a.url = "contents/lesson/"
              ++ toString (listMax (toc.filterMap TocEntry.slide_number) + 1) ++ ".html" := by
  have htoc : toc.isEmpty = false := by
    cases toc with
    | nil => exact absurd rfl h
    | cons e rest => rfl
  have hsns : (toc.filterMap TocEntry.slide_number).isEmpty = false := by
    cases hcase : toc.filterMap TocEntry.slide_number with
    | nil => exact absurd hcase h
    | cons x xs => rfl
  refine ⟨(emitGroups xcode lessonNum toc (-1) (groupToc toc)).1,
    additionalSupportsBlock xcode lessonNum
      ((emitGroups xcode lessonNum toc (-1) (groupToc toc)).2 + 1)
      (listMax (toc.filterMap TocEntry.slide_number)), ?_, rfl, ?_, ?_⟩
  · simp only [build_xml_for_sheet, htoc, hsns, Bool.false_eq_true, if_false]
  · exact emitGroups_titles xcode lessonNum toc (groupToc toc) (-1)
  · exact ⟨_, rfl, rfl⟩

/-- Witness for `additional_supports_last` on a toc with slide numbers 2 and
5 (one entry classifying as "Additional Supports"). -/
theorem additional_supports_last_witness :
    [TocEntry.mk (some 2) (some "warm up") (some "A"),
        TocEntry.mk (some 5) (some "Additional Supports") (some "B")].filterMap
      TocEntry.slide_number ≠ []
    ∧ ∃ bs : List Block, ∃ b : Block,
        build_xml_for_sheet "X" 1
            [TocEntry.mk (some 2) (some "warm up") (some "A"),
             TocEntry.mk (some 5) (some "Additional Supports") (some "B")]
          = some (bs ++ [b])
        ∧ b.title = "Additional Supports"
        ∧ (∀ b' ∈ bs, b'.title ≠ "Additional Supports")
        ∧ ∃ a : Au, b.aus = [a]
            ∧ a.url = "contents/lesson/"
                ++ toString (listMax
                    ([TocEntry.mk (some 2) (some "warm up") (some "A"),
                      TocEntry.mk (some 5) (some "Additional Supports") (some "B")].filterMap
                      TocEntry.slide_number) + 1) ++ ".html" :=
  ⟨by decide,
    additional_supports_last "X" 1
      [TocEntry.mk (some 2) (some "warm up") (some "A"),
       TocEntry.mk (some 5) (some "Additional Supports") (some "B")] (by decide)⟩

/-! ## Claim C2: the Lesson Opener block is not reordered to the front -/

/-- **C2** (counterexample): the claim says the "Lesson Opener" block comes
first regardless of where its section first occurs.  On a toc whose first
entry classifies as "Warm-up Review and Repetition" and whose second entry
classifies as "Lesson Opener", the first emitted block is the warm-up block:
groups are emitted in first-seen order and the opener is not moved. -/
theorem lesson_opener_not_reordered_cex :
    (∃ t ∈ [TocEntry.mk (some 1) (some "Warm up") (some "A"),
            TocEntry.mk (some 2) (some "intro") (some "B")],
       canonical_block_title t.section_ = "Lesson Opener")
    ∧ [TocEntry.mk (some 1) (some "Warm up") (some "A"),
       TocEntry.mk (some 2) (some "intro") (some "B")].filterMap TocEntry.slide_number ≠ []
    ∧ ((build_xml_for_sheet "X" 1
          [TocEntry.mk (some 1) (some "Warm up") (some "A"),
           TocEntry.mk (some 2) (some "intro") (some "B")]).map
        (fun bs => bs.head?.map Block.title))
        = some (some "Warm-up Review and Repetition")
    ∧ (some (some "Warm-up Review and Repetition") : Option (Option String))
        ≠ some (some "Lesson Opener") := by
  decide

/-- **C2** (amended): blocks follow the first-seen order of canonical titles;
the "Lesson Opener" block is emitted first exactly in its group position, so
it appears as the first block of the document whenever the *first* toc
entry's section classifies as "Lesson Opener". -/
theorem lesson_opener_first_if_first_entry (xcode : String) (lessonNum : Int)
    (toc : List TocEntry)
    (h : toc.filterMap TocEntry.slide_number ≠ [])
    (hfirst : toc.head?.map (fun e => canonical_block_title e.section_)
        = some "Lesson Opener") :
    ∃ bs : List Block,
      build_xml_for_sheet xcode lessonNum toc = some bs
      ∧ bs.head?.map Block.title = some "Lesson Opener" := by
  have htoc : toc.isEmpty = false := by
    cases toc with
    | nil => exact absurd rfl h
    | cons e rest => rfl
  have hsns : (toc.filterMap TocEntry.slide_number).isEmpty = false := by
    cases hcase : toc.filterMap TocEntry.slide_number with
    | nil => exact absurd hcase h
    | cons x xs => rfl
  obtain ⟨e, rest, rfl⟩ : ∃ e rest, toc = e :: rest := by
    cases toc with
    | nil => simp at hfirst
    | cons e rest => exact ⟨e, rest, rfl⟩
  have hkey : canonical_block_title e.section_ = "Lesson Opener" := by
    simpa using hfirst
  have hghead := groupToc_head_key e rest
  rw [hkey] at hghead
  rcases hg : groupToc (e :: rest) with _ | ⟨⟨k0, items⟩, grest⟩
  · rw [hg] at hghead
    simp at hghead
  · rw [hg] at hghead
    simp only [List.head?_cons, Option.map_some'] at hghead
    have hk0 : k0 = "Lesson Opener" := by
      injection hghead
    subst hk0
    refine ⟨(emitGroups xcode lessonNum (e :: rest) (-1) (groupToc (e :: rest))).1
        ++ [additionalSupportsBlock xcode lessonNum
            ((emitGroups xcode lessonNum (e :: rest) (-1) (groupToc (e :: rest))).2 + 1)
            (listMax ((e :: rest).filterMap TocEntry.slide_number))], ?_, ?_⟩
    · simp only [build_xml_for_sheet, htoc, hsns, Bool.false_eq_true, if_false]
    · rw [hg]
      simp only [emitGroups, if_true]
      rfl

/-- Witness for `lesson_opener_first_if_first_entry` on a toc whose first
entry's section is `"intro"`. -/
theorem lesson_opener_first_witness :
    [TocEntry.mk (some 1) (some "intro") (some "A"),
        TocEntry.mk (some 2) (some "Warm up") (some "B")].filterMap
      TocEntry.slide_number ≠ []
    ∧ ([TocEntry.mk (some 1) (some "intro") (some "A"),
        TocEntry.mk (some 2) (some "Warm up") (some "B")].head?.map
        (fun e => canonical_block_title e.section_) = some "Lesson Opener")
    ∧ ∃ bs : List Block,
        build_xml_for_sheet "X" 1
            [TocEntry.mk (some 1) (some "intro") (some "A"),
             TocEntry.mk (some 2) (some "Warm up") (some "B")]
          = some bs
        ∧ bs.head?.map Block.title = some "Lesson Opener" :=
  ⟨by decide, by decide,
    lesson_opener_first_if_first_entry "X" 1
      [TocEntry.mk (some 1) (some "intro") (some "A"),
       TocEntry.mk (some 2) (some "Warm up") (some "B")] (by decide) (by decide)⟩

/-! ## Sorting lemmas for the builder -/

theorem insEntry_perm (e : TocEntry) (l : List TocEntry) :
    (insEntry e l).Perm (e :: l) := by
  induction l with
  | nil => simp [insEntry]
  | cons x xs ih =>
      by_cases hle : e.slide_number.getD 0 ≤ x.slide_number.getD 0
      · simp [insEntry, hle]
      · simp only [insEntry, hle, if_false]
        exact (ih.cons x).trans (List.Perm.swap e x xs)

theorem pySortEntries_perm (l : List TocEntry) : (pySortEntries l).Perm l := by
  induction l with
  | nil => rfl
  | cons e rest ih =>
      unfold pySortEntries at *
      exact (insEntry_perm e _).trans (ih.cons e)

theorem insEntry_sorted (e : TocEntry) (l : List TocEntry)
    (h : l.Pairwise (fun a b => a.slide_number.getD 0 ≤ b.slide_number.getD 0)) :
    (insEntry e l).Pairwise (fun a b => a.slide_number.getD 0 ≤ b.slide_number.getD 0) := by
  induction l with
  | nil => simp [insEntry]
  | cons x xs ih =>
      rcases List.pairwise_cons.mp h with ⟨hx, hxs⟩
      by_cases hle : e.slide_number.getD 0 ≤ x.slide_number.getD 0
      · simp only [insEntry, hle, if_true]
        refine List.Pairwise.cons ?_ h
        intro y hy
        rcases List.mem_cons.mp hy with rfl | hy'
        · exact hle
        · exact le_trans hle (hx y hy')
      · simp only [insEntry, hle, if_false]
        refine List.Pairwise.cons ?_ (ih hxs)
        intro y hy
        rcases List.mem_cons.mp ((insEntry_perm e xs).mem_iff.mp hy) with rfl | hy'
        · exact le_of_not_le hle
        · exact hx y hy'

theorem pySortEntries_sorted (l : List TocEntry) :
    (pySortEntries l).Pairwise (fun a b => a.slide_number.getD 0 ≤ b.slide_number.getD 0) := by
  unfold pySortEntries
  induction l with
  | nil => simp
  | cons e rest ih => exact insEntry_sorted e _ ih

/-! ## Assignable-unit url lemmas -/

theorem stdAus_urls (xcode : String) (lessonNum : Int) (toc : List TocEntry) (bi : Int) :
    ∀ (items : List TocEntry) (seen : List (String × Nat)),
      (stdAus xcode lessonNum toc bi items seen).map Au.url
        = items.map
            (fun e => "contents/lesson/" ++ toString (e.slide_number.getD 0) ++ ".html") := by
  intro items
  induction items with
  | nil => intro seen; rfl
  | cons it rest ih =>
      intro seen
      simp only [stdAus, List.map_cons]
      rw [ih]

theorem openerAus_urls (xcode : String) (toc : List TocEntry) (items : List TocEntry) :
    (items.map (openerAu xcode toc)).map Au.url
      = items.map
          (fun e => "contents/lesson/" ++ toString (e.slide_number.getD 0) ++ ".html") := by
  induction items with
  | nil => rfl
  | cons it rest ih =>
      simp only [List.map_cons]
      rw [ih]
      rfl

/-! ## Grouping coverage lemmas -/

theorem groupInsert_self (acc : List (String × List TocEntry)) (k : String) (e : TocEntry) :
    ∃ its, (k, its) ∈ groupInsert acc k e ∧ e ∈ its := by
  induction acc with
  | nil => exact ⟨[e], by simp [groupInsert], by simp⟩
  | cons p rest ih =>
      obtain ⟨k0, es⟩ := p
      by_cases hk : k0 = k
      · subst hk
        exact ⟨es ++ [e], by simp [groupInsert], by simp⟩
      · obtain ⟨its, hmem, he⟩ := ih
        exact ⟨its, by simp [groupInsert, hk, hmem], he⟩

theorem groupInsert_preserves (acc : List (String × List TocEntry)) (k : String)
    (e : TocEntry) (k' : String) (its : List TocEntry) (x : TocEntry)
    (h : (k', its) ∈ acc) (hx : x ∈ its) :
    ∃ its', (k', its') ∈ groupInsert acc k e ∧ x ∈ its' := by
  induction acc with
  | nil => cases h
  | cons p rest ih =>
      obtain ⟨k0, es⟩ := p
      by_cases hk : k0 = k
      · subst hk
        simp only [groupInsert, if_true]
        rcases List.mem_cons.mp h with heq | htail
        · rw [Prod.mk.injEq] at heq
          obtain ⟨rfl, rfl⟩ := heq
          exact ⟨its ++ [e], List.mem_cons_self _ _, List.mem_append_left _ hx⟩
        · exact ⟨its, List.mem_cons_of_mem _ htail, hx⟩
      · simp only [groupInsert, hk, if_false]
        rcases List.mem_cons.mp h with heq | htail
        · exact ⟨its, heq ▸ List.mem_cons_self _ _, hx⟩
        · obtain ⟨its', hmem, hx'⟩ := ih htail
          exact ⟨its', List.mem_cons_of_mem _ hmem, hx'⟩

theorem foldl_groupInsert_covers (l : List TocEntry) :
    ∀ acc : List (String × List TocEntry),
      (∀ k' its x, (k', its) ∈ acc → x ∈ its →
        ∃ its', (k', its')
            ∈ l.foldl (fun acc e => groupInsert acc (canonical_block_title e.section_) e) acc
          ∧ x ∈ its')
      ∧ ∀ e ∈ l, ∃ items,
          (canonical_block_title e.section_, items)
              ∈ l.foldl (fun acc e => groupInsert acc (canonical_block_title e.section_) e) acc
            ∧ e ∈ items := by
  induction l with
  | nil =>
      intro acc
      exact ⟨fun k' its x h hx => ⟨its, h, hx⟩, by simp⟩
  | cons e rest ih =>
      intro acc
      constructor
      · intro k' its x h hx
        rw [List.foldl_cons]
        obtain ⟨its1, h1, hx1⟩ :=
          groupInsert_preserves acc (canonical_block_title e.section_) e k' its x h hx
        exact (ih _).1 k' its1 x h1 hx1
      · intro e' he'
        rw [List.foldl_cons]
        rcases List.mem_cons.mp he' with rfl | htail
        · obtain ⟨its1, h1, he1⟩ :=
            groupInsert_self acc (canonical_block_title e'.section_) e'
          exact (ih _).1 _ its1 e' h1 he1
        · exact (ih _).2 e' htail

theorem groupToc_covers (toc : List TocEntry) :
    ∀ e ∈ toc, ∃ items,
      (canonical_block_title e.section_, items) ∈ groupToc toc ∧ e ∈ items :=
  (foldl_groupInsert_covers toc []).2

theorem emitGroups_covers (xcode : String) (lessonNum : Int) (toc : List TocEntry)
    (groups : List (String × List TocEntry)) :
    ∀ bi : Int, ∀ bt items, (bt, items) ∈ groups → bt ≠ "Additional Supports" →
      ∃ b ∈ (emitGroups xcode lessonNum toc bi groups).1,
        b.aus.map Au.url
          = (pySortEntries items).map
              (fun e => "contents/lesson/" ++ toString (e.slide_number.getD 0) ++ ".html") := by
  induction groups with
  | nil =>
      intro bi bt items h _
      cases h
  | cons g rest ih =>
      obtain ⟨k0, items0⟩ := g
      intro bi bt items hmem hne
      by_cases h1 : k0 = "Lesson Opener"
      · simp only [emitGroups, h1, if_true]
        rcases List.mem_cons.mp hmem with heq | htail
        · rw [Prod.mk.injEq] at heq
          obtain ⟨rfl, rfl⟩ := heq
          exact ⟨openerBlock xcode toc items, List.mem_cons_self _ _,
            openerAus_urls xcode toc (pySortEntries items)⟩
        · obtain ⟨b, hb, hurl⟩ := ih bi bt items htail hne
          exact ⟨b, List.mem_cons_of_mem _ hb, hurl⟩
      · by_cases h2 : k0 = "Additional Supports"
        · simp only [emitGroups, h1, h2, if_false, if_true]
          rcases List.mem_cons.mp hmem with heq | htail
          · rw [Prod.mk.injEq] at heq
            obtain ⟨rfl, rfl⟩ := heq
            exact absurd h2 hne
          · exact ih bi bt items htail hne
        · simp only [emitGroups, h1, h2, if_false]
          rcases List.mem_cons.mp hmem with heq | htail
          · rw [Prod.mk.injEq] at heq
            obtain ⟨rfl, rfl⟩ := heq
            exact ⟨standardBlock xcode lessonNum toc (bi + 1) bt items,
              List.mem_cons_self _ _,
              stdAus_urls xcode lessonNum toc (bi + 1) (pySortEntries items) []⟩
          · obtain ⟨b, hb, hurl⟩ := ih (bi + 1) bt items htail hne
            exact ⟨b, List.mem_cons_of_mem _ hb, hurl⟩

/-! ## Claim C10: unparseable slide numbers default to 0 -/

/-- **C10** (counterexample): the claim says an unparseable entry sorts
before *every* genuinely numbered entry of its block.  With a parseable
slide number `-1` in the same block, the `-1` entry sorts first and the
unparseable entry (slide 0, url `contents/lesson/0.html`) comes after it. -/
theorem unparseable_entry_sort_cex :
    (TocEntry.mk none (some "Warm up") (some "A")).slide_number = none
    ∧ [TocEntry.mk none (some "Warm up") (some "A"),
       TocEntry.mk (some (-1)) (some "Warm up") (some "B")].filterMap
        TocEntry.slide_number ≠ []
    ∧ ((build_xml_for_sheet "X" 1
          [TocEntry.mk none (some "Warm up") (some "A"),
           TocEntry.mk (some (-1)) (some "Warm up") (some "B")]).map
        (fun bs => bs.map (fun b => b.aus.map Au.url)))
        = some [["contents/lesson/-1.html", "contents/lesson/0.html"],
                ["contents/lesson/0.html"]]
    ∧ ("contents/lesson/-1.html" : String) ≠ "contents/lesson/0.html" := by
  decide

/-- **C10** (amended): when the toc has a parseable slide number the document
is built; every toc entry lands in the group of its canonical block title;
every non-"Additional Supports" group yields a block whose assignable units
are the group's entries sorted by `_to_int(slide_number, 0)` (one unit per
entry — unparseable entries are not dropped), with each unit's url built from
the entry's parsed number defaulted to 0 (`contents/lesson/0.html` for
unparseable ones); and within the sorted order an unparseable entry precedes
every entry whose parsed number is *positive* (not every numbered entry:
zero or negative numbers sort at or before 0). -/
theorem unparseable_entries_zero (xcode : String) (lessonNum : Int) (toc : List TocEntry)
    (h : toc.filterMap TocEntry.slide_number ≠ []) :
    ∃ bs : List Block,
      build_xml_for_sheet xcode lessonNum toc = some bs
      ∧ (∀ e ∈ toc, ∃ items,
            (canonical_block_title e.section_, items) ∈ groupToc toc ∧ e ∈ items)
      ∧ (∀ bt items, (bt, items) ∈ groupToc toc → bt ≠ "Additional Supports" →
          ∃ b ∈ bs, b.aus.map Au.url
            = (pySortEntries items).map
                (fun e => "contents/lesson/" ++ toString (e.slide_number.getD 0) ++ ".html"))
      ∧ (∀ e : TocEntry, e.slide_number = none →
          "contents/lesson/" ++ toString (e.slide_number.getD 0) ++ ".html"
            = "contents/lesson/0.html")
      ∧ ∀ items : List TocEntry, ∀ i j : Nat,
          ∀ hi : i < (pySortEntries items).length, ∀ hj : j < (pySortEntries items).length,
          ((pySortEntries items).get ⟨i, hi⟩).slide_number = none →
          0 < ((pySortEntries items).get ⟨j, hj⟩).slide_number.getD 0 →
          i < j := by
  have htoc : toc.isEmpty = false := by
    cases toc with
    | nil => exact absurd rfl h
    | cons e rest => rfl
  have hsns : (toc.filterMap TocEntry.slide_number).isEmpty = false := by
    cases hcase : toc.filterMap TocEntry.slide_number with
    | nil => exact absurd hcase h
    | cons x xs => rfl
  refine ⟨(emitGroups xcode lessonNum toc (-1) (groupToc toc)).1
      ++ [additionalSupportsBlock xcode lessonNum
          ((emitGroups xcode lessonNum toc (-1) (groupToc toc)).2 + 1)
          (listMax (toc.filterMap TocEntry.slide_number))], ?_, groupToc_covers toc,
    ?_, ?_, ?_⟩
  · simp only [build_xml_for_sheet, htoc, hsns, Bool.false_eq_true, if_false]
  · intro bt items hmem hne
    obtain ⟨b, hb, hurl⟩ := emitGroups_covers xcode lessonNum toc (groupToc toc) (-1)
      bt items hmem hne
    exact ⟨b, List.mem_append_left _ hb, hurl⟩
  · intro e he
    rw [he]
    rfl
  · intro items i j hi hj hnone hpos
    rcases Nat.lt_trichotomy i j with hij | hij | hij
    · exact hij
    · subst hij
      rw [hnone] at hpos
      simp at hpos
    · have hle := (List.pairwise_iff_get.mp (pySortEntries_sorted items)) ⟨j, hj⟩ ⟨i, hi⟩ hij
      rw [hnone] at hle
      simp only [Option.getD_none] at hle
      omega

/-- Witness for `unparseable_entries_zero` on a toc with one unparseable and
one parseable entry. -/
theorem unparseable_entries_zero_witness :
    [TocEntry.mk none (some "Warm up") (some "A"),
        TocEntry.mk (some 4) (some "Warm up") (some "B")].filterMap
      TocEntry.slide_number ≠ []
    ∧ ∃ bs : List Block,
        build_xml_for_sheet "X" 1
            [TocEntry.mk none (some "Warm up") (some "A"),
             TocEntry.mk (some 4) (some "Warm up") (some "B")]
          = some bs
        ∧ (∀ e ∈ [TocEntry.mk none (some "Warm up") (some "A"),
              TocEntry.mk (some 4) (some "Warm up") (some "B")], ∃ items,
              (canonical_block_title e.section_, items)
                  ∈ groupToc [TocEntry.mk none (some "Warm up") (some "A"),
                      TocEntry.mk (some 4) (some "Warm up") (some "B")]
                ∧ e ∈ items)
        ∧ (∀ bt items,
            (bt, items) ∈ groupToc [TocEntry.mk none (some "Warm up") (some "A"),
                TocEntry.mk (some 4) (some "Warm up") (some "B")] →
            bt ≠ "Additional Supports" →
            ∃ b ∈ bs, b.aus.map Au.url
              = (pySortEntries items).map
                  (fun e => "contents/lesson/" ++ toString (e.slide_number.getD 0) ++ ".html"))
        ∧ (∀ e : TocEntry, e.slide_number = none →
            "contents/lesson/" ++ toString (e.slide_number.getD 0) ++ ".html"
              = "contents/lesson/0.html")
        ∧ ∀ items : List TocEntry, ∀ i j : Nat,
            ∀ hi : i < (pySortEntries items).length,
            ∀ hj : j < (pySortEntries items).length,
            ((pySortEntries items).get ⟨i, hi⟩).slide_number = none →
            0 < ((pySortEntries items).get ⟨j, hj⟩).slide_number.getD 0 →
            i < j :=
  ⟨by decide,
    unparseable_entries_zero "X" 1
      [TocEntry.mk none (some "Warm up") (some "A"),
       TocEntry.mk (some 4) (some "Warm up") (some "B")] (by decide)⟩

/-! ## Decimal representation lemmas (for identifier uniqueness) -/

theorem digitChar_isDigit (k : Nat) (h : k < 10) : (Nat.digitChar k).isDigit = true := by
  interval_cases k <;> decide

theorem digitChar_val (k : Nat) (h : k < 10) : (Nat.digitChar k).toNat - 48 = k := by
  interval_cases k <;> decide

theorem natDigits_lt10 (n : Nat) (h : n < 10) : natDigits n = [Nat.digitChar n] := by
  conv_lhs => rw [natDigits]
  simp [h]

theorem natDigits_ge10 (n : Nat) (h : ¬n < 10) :
    natDigits n = natDigits (n / 10) ++ [Nat.digitChar (n % 10)] := by
  conv_lhs => rw [natDigits]
  simp [h]

theorem natDigits_ne_nil (n : Nat) : natDigits n ≠ [] := by
  unfold natDigits
  by_cases h : n < 10 <;> simp [h]

theorem natDigits_digits (n : Nat) : ∀ c ∈ natDigits n, c.isDigit = true := by
  induction n using Nat.strong_induction_on with
  | _ n ih =>
      unfold natDigits
      by_cases h : n < 10
      · simp only [h, if_true]
        intro c hc
        rcases List.mem_singleton.mp hc with rfl
        exact digitChar_isDigit n h
      · simp only [h, if_false]
        intro c hc
        rcases List.mem_append.mp hc with h1 | h2
        · exact ih (n / 10) (Nat.div_lt_self (by omega) (by omega)) c h1
        · rcases List.mem_singleton.mp h2 with rfl
          exact digitChar_isDigit _ (Nat.mod_lt n (by omega))

theorem natDigits_foldl (n : Nat) :
    ∀ a : Nat, (natDigits n).foldl (fun a c => a * 10 + (c.toNat - 48)) a
      = a * 10 ^ (natDigits n).length + n := by
  induction n using Nat.strong_induction_on with
  | _ n ih =>
      intro a
      unfold natDigits
      by_cases h : n < 10
      · simp only [h, if_true, List.foldl_cons, List.foldl_nil, List.length_singleton]
        rw [digitChar_val n h]
        ring
      · simp only [h, if_false]
        rw [List.foldl_append,
          ih (n / 10) (Nat.div_lt_self (by omega) (by omega)) a]
        simp only [List.foldl_cons, List.foldl_nil, List.length_append,
          List.length_singleton]
        rw [digitChar_val _ (Nat.mod_lt n (by omega))]
        calc (a * 10 ^ (natDigits (n / 10)).length + n / 10) * 10 + n % 10
            = a * (10 ^ (natDigits (n / 10)).length * 10) + (n / 10 * 10 + n % 10) := by
              ring
          _ = a * 10 ^ ((natDigits (n / 10)).length + 1) + n := by
              rw [pow_succ, Nat.div_add_mod']

theorem digitsToNat_natDigits (n : Nat) : digitsToNat (natDigits n) = n := by
  unfold digitsToNat
  rw [natDigits_foldl n 0]
  simp

theorem natDigits_inj (m n : Nat) (h : natDigits m = natDigits n) : m = n := by
  have hval := congrArg digitsToNat h
  rwa [digitsToNat_natDigits, digitsToNat_natDigits] at hval

theorem toDigitsCore_eq_natDigits :
    ∀ (fuel n : Nat) (ds : List Char), n < fuel →
      Nat.toDigitsCore 10 fuel n ds = natDigits n ++ ds := by
  intro fuel
  induction fuel with
  | zero =>
      intro n ds h
      omega
  | succ f ih =>
      intro n ds h
      simp only [Nat.toDigitsCore]
      by_cases hz : n / 10 = 0
      · have hn : n < 10 := by omega
        simp only [hz, if_true]
        rw [natDigits_lt10 n hn, Nat.mod_eq_of_lt hn]
        rfl
      · have hn : ¬n < 10 := by omega
        simp only [hz, if_false]
        rw [ih (n / 10) _ (by omega), natDigits_ge10 n hn]
        simp

theorem natRepr_eq (n : Nat) : Nat.repr n = String.mk (natDigits n) := by
  unfold Nat.repr Nat.toDigits
  rw [toDigitsCore_eq_natDigits (n + 1) n [] (Nat.lt_succ_self n)]
  rw [List.append_nil]
  rfl

theorem toString_int_ofNat (m : Nat) : toString (Int.ofNat m) = Nat.repr m := rfl

theorem toString_nonneg_digits (i : Int) (h : 0 ≤ i) :
    (toString i).data ≠ [] ∧ ∀ c ∈ (toString i).data, c.isDigit = true := by
  obtain ⟨m, rfl⟩ := Int.eq_ofNat_of_zero_le h
  have he : (toString (Int.ofNat m)).data = natDigits m := by
    rw [toString_int_ofNat, natRepr_eq]
  constructor
  · show (toString (Int.ofNat m)).data ≠ []
    rw [he]
    exact natDigits_ne_nil m
  · show ∀ c ∈ (toString (Int.ofNat m)).data, c.isDigit = true
    rw [he]
    exact natDigits_digits m

theorem toString_int_inj (i j : Int) (hi : 0 ≤ i) (hj : 0 ≤ j)
    (h : (toString i).data = (toString j).data) : i = j := by
  obtain ⟨m, rfl⟩ := Int.eq_ofNat_of_zero_le hi
  obtain ⟨n, rfl⟩ := Int.eq_ofNat_of_zero_le hj
  have h' : (toString (Int.ofNat m)).data = (toString (Int.ofNat n)).data := h
  rw [toString_int_ofNat, toString_int_ofNat, natRepr_eq, natRepr_eq] at h'
  have hmn : natDigits m = natDigits n := h'
  show Int.ofNat m = Int.ofNat n
  exact congrArg Int.ofNat (natDigits_inj m n hmn)

theorem digit_slash_prefix_eq (as : List Char) :
    ∀ (bs u v : List Char),
      (∀ c ∈ as, c.isDigit = true) → (∀ c ∈ bs, c.isDigit = true) →
      as ++ '/' :: u = bs ++ '/' :: v → as = bs := by
  induction as with
  | nil =>
      intro bs u v _ hb h
      cases bs with
      | nil => rfl
      | cons b bs' =>
          simp only [List.nil_append, List.cons_append, List.cons.injEq] at h
          obtain ⟨hb1, -⟩ := h
          have hd := hb b (List.mem_cons_self _ _)
          rw [← hb1] at hd
          exact absurd hd (by decide)
  | cons a as' ih =>
      intro bs u v ha hb h
      cases bs with
      | nil =>
          simp only [List.cons_append, List.nil_append, List.cons.injEq] at h
          obtain ⟨hb1, -⟩ := h
          have hd := ha a (List.mem_cons_self _ _)
          rw [hb1] at hd
          exact absurd hd (by decide)
      | cons b bs' =>
          simp only [List.cons_append, List.cons.injEq] at h
          obtain ⟨rfl, h2⟩ := h
          rw [ih bs' u v (fun c hc => ha c (List.mem_cons_of_mem _ hc))
            (fun c hc => hb c (List.mem_cons_of_mem _ hc)) h2]

theorem slash_ne_digits_append (ds u w : List Char) (hne : ds ≠ [])
    (hd : ∀ c ∈ ds, c.isDigit = true) : '/' :: w ≠ ds ++ '/' :: u := by
  intro h
  cases ds with
  | nil => exact hne rfl
  | cons d ds' =>
      simp only [List.cons_append, List.cons.injEq] at h
      obtain ⟨h1, -⟩ := h
      have hdd := hd d (List.mem_cons_self _ _)
      rw [← h1] at hdd
      exact absurd hdd (by decide)

/-! ## Identifier shape lemmas -/

theorem openerId_data (xcode : String) :
    (baseUrl xcode ++ "/block/lesson_opener_block").data
      = (baseUrl xcode ++ "/block").data ++ '/' :: "lesson_opener_block".data := by
  have h1 : ("/block/lesson_opener_block" : String)
      = "/block" ++ "/lesson_opener_block" := by decide
  rw [h1, ← String.append_assoc, String.data_append]

theorem stdBlockId_data (xcode : String) (L i : Int) (slug : String) :
    (stdBlockId xcode L i slug).data
      = (baseUrl xcode ++ "/block").data
          ++ ((toString i).data
              ++ '/' :: ("lesson_".data ++ ((toString L).data ++ '/' :: slug.data))) := by
  unfold stdBlockId
  have h1 : ("/lesson_" : String) = "/" ++ "lesson_" := by decide
  have h2 : ("/" : String).data = ['/'] := by decide
  rw [h1]
  simp only [String.data_append, h2, List.append_assoc, List.singleton_append,
    List.cons_append, List.nil_append]

theorem openerId_ne_stdId (xcode : String) (L i : Int) (slug : String) (hi : 0 ≤ i) :
    baseUrl xcode ++ "/block/lesson_opener_block" ≠ stdBlockId xcode L i slug := by
  intro heq
  have hd := congrArg String.data heq
  rw [openerId_data, stdBlockId_data] at hd
  have hcancel := List.append_cancel_left hd
  exact slash_ne_digits_append (toString i).data _ _
    (toString_nonneg_digits i hi).1 (toString_nonneg_digits i hi).2 hcancel

theorem stdId_inj_index (xcode : String) (L i j : Int) (si sj : String)
    (hi : 0 ≤ i) (hj : 0 ≤ j)
    (h : stdBlockId xcode L i si = stdBlockId xcode L j sj) : i = j := by
  have hd := congrArg String.data h
  rw [stdBlockId_data, stdBlockId_data] at hd
  have hcancel := List.append_cancel_left hd
  exact toString_int_inj i j hi hj
    (digit_slash_prefix_eq (toString i).data (toString j).data _ _
      (toString_nonneg_digits i hi).2 (toString_nonneg_digits j hj).2 hcancel)

/-! ## Block index bookkeeping -/

theorem emitGroups_spec (xcode : String) (lessonNum : Int) (toc : List TocEntry)
    (groups : List (String × List TocEntry)) :
    ∀ bi : Int,
      bi ≤ (emitGroups xcode lessonNum toc bi groups).2
      ∧ ∀ b ∈ (emitGroups xcode lessonNum toc bi groups).1,
          (b.id = baseUrl xcode ++ "/block/lesson_opener_block"
              ∧ "Lesson Opener" ∈ groups.map Prod.fst)
          ∨ ∃ i : Int, ∃ slg : String, bi < i
              ∧ i ≤ (emitGroups xcode lessonNum toc bi groups).2
              ∧ b.id = stdBlockId xcode lessonNum i slg := by
  induction groups with
  | nil =>
      intro bi
      exact ⟨le_refl bi, by simp [emitGroups]⟩
  | cons g rest ih =>
      obtain ⟨bt, items⟩ := g
      intro bi
      by_cases h1 : bt = "Lesson Opener"
      · simp only [emitGroups, h1, if_true]
        obtain ⟨ihle, ihmem⟩ := ih bi
        refine ⟨ihle, ?_⟩
        intro b hb
        rcases List.mem_cons.mp hb with rfl | hb'
        · left
          exact ⟨rfl, by simp [h1]⟩
        · rcases ihmem b hb' with ⟨hid, hin⟩ | ⟨i, slg, h2, h3, h4⟩
          · left
            exact ⟨hid, by simp [hin]⟩
          · right
            exact ⟨i, slg, h2, h3, h4⟩
      · by_cases h2 : bt = "Additional Supports"
        · simp only [emitGroups, h1, h2, if_false, if_true]
          obtain ⟨ihle, ihmem⟩ := ih bi
          refine ⟨ihle, ?_⟩
          intro b hb
          rcases ihmem b hb with ⟨hid, hin⟩ | hstd
          · left
            exact ⟨hid, by simp [hin]⟩
          · right
            exact hstd
        · simp only [emitGroups, h1, h2, if_false]
          obtain ⟨ihle, ihmem⟩ := ih (bi + 1)
          refine ⟨by omega, ?_⟩
          intro b hb
          rcases List.mem_cons.mp hb with rfl | hb'
          · right
            exact ⟨bi + 1,
              slugify (match items.head? with
                       | some it => it.section_.getD ""
                       | none => bt), by omega, ihle, rfl⟩
          · rcases ihmem b hb' with ⟨hid, hin⟩ | ⟨i, slg, h3, h4, h5⟩
            · left
              exact ⟨hid, by simp [hin]⟩
            · right
              exact ⟨i, slg, by omega, h4, h5⟩

theorem emitGroups_ids_nodup (xcode : String) (lessonNum : Int) (toc : List TocEntry)
    (groups : List (String × List TocEntry)) :
    ∀ bi : Int, -1 ≤ bi → (groups.map Prod.fst).Nodup →
      ((emitGroups xcode lessonNum toc bi groups).1.map Block.id).Nodup := by
  induction groups with
  | nil =>
      intro bi _ _
      simp [emitGroups]
  | cons g rest ih =>
      obtain ⟨bt, items⟩ := g
      intro bi hbi hnd
      have hnd2 : (bt :: rest.map Prod.fst).Nodup := by simpa using hnd
      rcases List.nodup_cons.mp hnd2 with ⟨hnotin, hnd'⟩
      by_cases h1 : bt = "Lesson Opener"
      · simp only [emitGroups, h1, if_true, List.map_cons]
        refine List.nodup_cons.mpr ⟨?_, ih bi hbi hnd'⟩
        intro hmem
        rcases List.mem_map.mp hmem with ⟨b, hb, hid⟩
        have hid' : b.id = baseUrl xcode ++ "/block/lesson_opener_block" := hid
        rcases (emitGroups_spec xcode lessonNum toc rest bi).2 b hb with
          ⟨_, hin⟩ | ⟨i, slg, hlt, _, hstd⟩
        · exact hnotin (h1 ▸ hin)
        · exact openerId_ne_stdId xcode lessonNum i slg (by omega)
            (hid'.symm.trans hstd)
      · by_cases h2 : bt = "Additional Supports"
        · simp only [emitGroups, h1, h2, if_false, if_true]
          exact ih bi hbi hnd'
        · simp only [emitGroups, h1, h2, if_false, List.map_cons]
          refine List.nodup_cons.mpr ⟨?_, ih (bi + 1) (by omega) hnd'⟩
          intro hmem
          rcases List.mem_map.mp hmem with ⟨b, hb, hid⟩
          have hid' : b.id = stdBlockId xcode lessonNum (bi + 1)
              (slugify (match items.head? with
                        | some it => it.section_.getD ""
                        | none => bt)) := hid
          rcases (emitGroups_spec xcode lessonNum toc rest (bi + 1)).2 b hb with
            ⟨hop, _⟩ | ⟨i, slg, hlt, _, hstd⟩
          · exact openerId_ne_stdId xcode lessonNum (bi + 1) _ (by omega)
              (hop.symm.trans hid')
          · have := stdId_inj_index xcode lessonNum i (bi + 1) slg _
              (by omega) (by omega) (hstd.symm.trans hid')
            omega

/-! ## Group keys are duplicate-free -/

theorem groupInsert_keys (acc : List (String × List TocEntry)) (k : String) (e : TocEntry) :
    (groupInsert acc k e).map Prod.fst
      = if k ∈ acc.map Prod.fst then acc.map Prod.fst
        else acc.map Prod.fst ++ [k] := by
  induction acc with
  | nil => simp [groupInsert]
  | cons p rest ih =>
      obtain ⟨k0, es⟩ := p
      by_cases hk : k0 = k
      · subst hk
        simp [groupInsert]
      · have hk' : ¬k = k0 := fun hh => hk hh.symm
        by_cases hmem : k ∈ rest.map Prod.fst <;>
          simp [groupInsert, hk, hk', hmem, ih]

theorem foldl_groupInsert_keys_nodup (l : List TocEntry) :
    ∀ acc : List (String × List TocEntry), (acc.map Prod.fst).Nodup →
      ((l.foldl (fun acc e => groupInsert acc (canonical_block_title e.section_) e)
          acc).map Prod.fst).Nodup := by
  induction l with
  | nil =>
      intro acc h
      exact h
  | cons e rest ih =>
      intro acc h
      rw [List.foldl_cons]
      apply ih
      rw [groupInsert_keys]
      by_cases hmem : canonical_block_title e.section_ ∈ acc.map Prod.fst
      · simpa [hmem] using h
      · simp only [hmem, if_false]
        rw [List.nodup_append]
        exact ⟨h, List.nodup_singleton _, by simpa using hmem⟩

theorem groupToc_keys_nodup (toc : List TocEntry) :
    ((groupToc toc).map Prod.fst).Nodup :=
  foldl_groupInsert_keys_nodup toc [] (by simp)

/-! ## Claim C7: identifier uniqueness -/

/-- **C7** (counterexample): assignable-unit identifiers are not unique — a
"Lesson Opener" group with two entries yields two `au` elements carrying the
identical fixed id `.../block/lesson_opener_lesson` (no position or slug is
incorporated). -/
theorem opener_au_ids_duplicate_cex :
    ((build_xml_for_sheet "X" 1
        [TocEntry.mk (some 1) (some "intro") (some "A"),
         TocEntry.mk (some 2) (some "intro") (some "B")]).map
      (fun bs => bs.map (fun b => b.aus.map Au.id)))
      = some [["http://benchmarkuniverse.com/X/block/lesson_opener_lesson",
               "http://benchmarkuniverse.com/X/block/lesson_opener_lesson"],
              ["http://benchmarkuniverse.com/X/block0/lesson_1/additionalsupports_0"]]
    ∧ (["http://benchmarkuniverse.com/X/block/lesson_opener_lesson",
        "http://benchmarkuniverse.com/X/block/lesson_opener_lesson"] : List String).Nodup
        = False := by
  constructor
  · decide
  · simp

/-- **C7** (amended): within one emitted document the *block* identifiers are
pairwise distinct — the opener block's fixed id differs from every indexed
id, and indexed ids (standard blocks and the trailing supports block) carry
pairwise distinct decimal indices — whereas assignable-unit ids are not
unique in general (all opener units share one fixed id). -/
theorem block_ids_unique (xcode : String) (lessonNum : Int) (toc : List TocEntry)
    (bs : List Block) (h : build_xml_for_sheet xcode lessonNum toc = some bs) :
    (bs.map Block.id).Nodup := by
  cases hc1 : toc.isEmpty with
  | true =>
      rw [build_xml_for_sheet, if_pos hc1] at h
      cases h
  | false =>
      cases hc2 : (toc.filterMap TocEntry.slide_number).isEmpty with
      | true =>
          simp only [build_xml_for_sheet, hc1, hc2, Bool.false_eq_true, if_false,
            if_true] at h
          cases h
      | false =>
          simp only [build_xml_for_sheet, hc1, hc2, Bool.false_eq_true, if_false] at h
          injection h with hbs
          subst hbs
          rw [List.map_append, List.nodup_append]
          refine ⟨emitGroups_ids_nodup xcode lessonNum toc (groupToc toc) (-1)
              (by omega) (groupToc_keys_nodup toc), by simp, ?_⟩
          intro x hx
          rcases List.mem_map.mp hx with ⟨b, hb, hid⟩
          simp only [List.map_cons, List.map_nil, List.mem_singleton]
          intro hxas
          have hbas : b.id = stdBlockId xcode lessonNum
              ((emitGroups xcode lessonNum toc (-1) (groupToc toc)).2 + 1)
              "additional_supports" := by
            rw [hid, hxas]
            rfl
          have hfin := (emitGroups_spec xcode lessonNum toc (groupToc toc) (-1)).1
          rcases (emitGroups_spec xcode lessonNum toc (groupToc toc) (-1)).2 b hb with
            ⟨hop, _⟩ | ⟨i, slg, hlt, hle, hstd⟩
          · exact openerId_ne_stdId xcode lessonNum _ _ (by omega)
              (hop.symm.trans hbas)
          · have := stdId_inj_index xcode lessonNum i
                ((emitGroups xcode lessonNum toc (-1) (groupToc toc)).2 + 1) slg _
              (by omega) (by omega) (hstd.symm.trans hbas)
            omega

/-- Witness for `block_ids_unique` on a two-entry toc. -/
theorem block_ids_unique_witness :
    ∃ bs : List Block,
      build_xml_for_sheet "X" 1
          [TocEntry.mk (some 1) (some "intro") (some "A"),
           TocEntry.mk (some 2) (some "Warm up") (some "B")]
        = some bs
      ∧ (bs.map Block.id).Nodup := by
  rcases hb : build_xml_for_sheet "X" 1
      [TocEntry.mk (some 1) (some "intro") (some "A"),
       TocEntry.mk (some 2) (some "Warm up") (some "B")] with _ | bs
  · exact absurd hb (by decide)
  · exact ⟨bs, rfl, block_ids_unique "X" 1
      [TocEntry.mk (some 1) (some "intro") (some "A"),
       TocEntry.mk (some 2) (some "Warm up") (some "B")] bs hb⟩

/-- The titles of the emitted blocks are exactly the grouped keys in
first-seen order, with "Additional Supports" groups dropped: the
`grouped.items()` loop never reorders groups. -/
theorem emitGroups_title_list (xcode : String) (lessonNum : Int) (toc : List TocEntry)
    (groups : List (String × List TocEntry)) :
    ∀ bi : Int,
      (emitGroups xcode lessonNum toc bi groups).1.map Block.title
        = (groups.map Prod.fst).filter (fun k => k ≠ "Additional Supports") := by
  induction groups with
  | nil =>
      intro bi
      rfl
  | cons g rest ih =>
      obtain ⟨bt, items⟩ := g
      intro bi
      by_cases h1 : bt = "Lesson Opener"
      · subst h1
        simp only [emitGroups, if_true, List.map_cons]
        rw [ih bi, List.filter_cons, if_pos (by decide)]
        rfl
      · by_cases h2 : bt = "Additional Supports"
        · subst h2
          simp only [emitGroups, h1, if_false, if_true]
          rw [ih bi]
          have hkeys : (((("Additional Supports" : String), items) :: rest).map Prod.fst)
              = "Additional Supports" :: rest.map Prod.fst := rfl
          rw [hkeys, List.filter_cons, if_neg (by decide)]
        · simp only [emitGroups, h1, h2, if_false, List.map_cons]
          rw [ih (bi + 1), List.filter_cons, if_pos (decide_eq_true h2)]
          rfl

/-- **C2** (amended, general form): with at least one parseable slide number
and at least one entry classifying as "Lesson Opener", the document is
emitted with the synthesized "Additional Supports" block last, and the
preceding blocks carry exactly the canonical block titles in *first-seen
group order* with "Additional Supports" groups dropped — so the "Lesson
Opener" block occurs exactly once, at its group's first-seen position
(never reordered to the front), and it is the first block iff "Lesson
Opener" is the first non-"Additional Supports" canonical title. -/
theorem lesson_opener_group_position (xcode : String) (lessonNum : Int)
    (toc : List TocEntry)
    (h : toc.filterMap TocEntry.slide_number ≠ [])
    (hLO : ∃ e ∈ toc, canonical_block_title e.section_ = "Lesson Opener") :
    ∃ bs : List Block, ∃ b : Block,
      build_xml_for_sheet xcode lessonNum toc = some (bs ++ [b])
      ∧ b.title = "Additional Supports"
      ∧ bs.map Block.title
          = ((groupToc toc).map Prod.fst).filter (fun k => k ≠ "Additional Supports")
      ∧ (bs.map Block.title).Nodup
      ∧ "Lesson Opener" ∈ bs.map Block.title
      ∧ (bs.head?.map Block.title = some "Lesson Opener" ↔
          (((groupToc toc).map Prod.fst).filter
            (fun k => k ≠ "Additional Supports")).head? = some "Lesson Opener") := by
  have htoc : toc.isEmpty = false := by
    cases toc with
    | nil => exact absurd rfl h
    | cons e rest => rfl
  have hsns : (toc.filterMap TocEntry.slide_number).isEmpty = false := by
    cases hcase : toc.filterMap TocEntry.slide_number with
    | nil => exact absurd hcase h
    | cons x xs => rfl
  have htitles := emitGroups_title_list xcode lessonNum toc (groupToc toc) (-1)
  refine ⟨(emitGroups xcode lessonNum toc (-1) (groupToc toc)).1,
    additionalSupportsBlock xcode lessonNum
      ((emitGroups xcode lessonNum toc (-1) (groupToc toc)).2 + 1)
      (listMax (toc.filterMap TocEntry.slide_number)), ?_, rfl, htitles, ?_, ?_, ?_⟩
  · simp only [build_xml_for_sheet, htoc, hsns, Bool.false_eq_true, if_false]
  · rw [htitles]
    exact (groupToc_keys_nodup toc).filter _
  · rw [htitles]
    obtain ⟨e, he, hcan⟩ := hLO
    obtain ⟨items, hmem, -⟩ := groupToc_covers toc e he
    rw [hcan] at hmem
    exact List.mem_filter.mpr
      ⟨List.mem_map.mpr ⟨("Lesson Opener", items), hmem, rfl⟩, by decide⟩
  · rw [← htitles, List.head?_map]

/-- Witness for `lesson_opener_group_position` on a toc whose "Lesson
Opener" group is *second* in first-seen order (after a warm-up group). -/
theorem lesson_opener_group_position_witness :
    [TocEntry.mk (some 1) (some "Warm up") (some "A"),
        TocEntry.mk (some 2) (some "intro") (some "B"),
        TocEntry.mk (some 3) (some "Warm up") (some "C")].filterMap
      TocEntry.slide_number ≠ []
    ∧ (∃ e ∈ [TocEntry.mk (some 1) (some "Warm up") (some "A"),
          TocEntry.mk (some 2) (some "intro") (some "B"),
          TocEntry.mk (some 3) (some "Warm up") (some "C")],
        canonical_block_title e.section_ = "Lesson Opener")
    ∧ ∃ bs : List Block, ∃ b : Block,
        build_xml_for_sheet "X" 1
            [TocEntry.mk (some 1) (some "Warm up") (some "A"),
             TocEntry.mk (some 2) (some "intro") (some "B"),
             TocEntry.mk (some 3) (some "Warm up") (some "C")]
          = some (bs ++ [b])
        ∧ b.title = "Additional Supports"
        ∧ bs.map Block.title
            = ((groupToc [TocEntry.mk (some 1) (some "Warm up") (some "A"),
                  TocEntry.mk (some 2) (some "intro") (some "B"),
                  TocEntry.mk (some 3) (some "Warm up") (some "C")]).map
                Prod.fst).filter (fun k => k ≠ "Additional Supports")
        ∧ (bs.map Block.title).Nodup
        ∧ "Lesson Opener" ∈ bs.map Block.title
        ∧ (bs.head?.map Block.title = some "Lesson Opener" ↔
            (((groupToc [TocEntry.mk (some 1) (some "Warm up") (some "A"),
                  TocEntry.mk (some 2) (some "intro") (some "B"),
                  TocEntry.mk (some 3) (some "Warm up") (some "C")]).map
                Prod.fst).filter
              (fun k => k ≠ "Additional Supports")).head? = some "Lesson Opener") :=
  ⟨by decide, by decide,
    lesson_opener_group_position "X" 1
      [TocEntry.mk (some 1) (some "Warm up") (some "A"),
       TocEntry.mk (some 2) (some "intro") (some "B"),
       TocEntry.mk (some 3) (some "Warm up") (some "C")] (by decide) (by decide)⟩

end PiPipeline
